/-
Verification of the ashwam_monitor drift/invariant detection engine.

Shallow embedding of the Python sources under `ashwam_monitor/`:
strings are lists of characters, Python floats are modelled as exact
rationals (`ℚ`) where the code only does field arithmetic and
comparisons, and as real numbers (`ℝ`) where logarithms and square
roots appear.  Fallible operations return `Option`/`Bool` exactly as
the source returns sentinel values.
-/
import Mathlib

namespace Ashwam

/-! ## String primitives (Python `str.lower`, `str.strip`, `str.split`, `in`) -/

/-- Python's `s.lower()`: character-wise lower-casing. -/
def lowerStr (s : List Char) : List Char :=
  s.map Char.toLower

/-- Python's `s.strip()`: drop leading and trailing whitespace. -/
def stripStr (s : List Char) : List Char :=
  ((s.dropWhile Char.isWhitespace).reverse.dropWhile Char.isWhitespace).reverse

/-- Python's `needle in haystack` on strings: substring containment. -/
def containsSub : List Char → List Char → Bool
  | needle, [] => needle.isEmpty
  | needle, c :: rest => needle.isPrefixOf (c :: rest) || containsSub needle rest

/-- Python's `s.split()`: split on whitespace runs, discarding empty pieces.
`acc` holds the current word reversed. -/
def splitWsAux : List Char → List Char → List (List Char)
  | [], acc => if acc.isEmpty then [] else [acc.reverse]
  | c :: rest, acc =>
    if c.isWhitespace then
      if acc.isEmpty then splitWsAux rest [] else acc.reverse :: splitWsAux rest []
    else
      splitWsAux rest (c :: acc)

def splitWs (s : List Char) : List (List Char) :=
  splitWsAux s []

/-- Python's `" ".join(words)`. -/
def joinWords : List (List Char) → List Char
  | [] => []
  | [w] => w
  | w :: rest => w ++ ' ' :: joinWords rest

/-! ### Lemmas about the string primitives -/

theorem containsSub_iff_infix (needle haystack : List Char) :
    containsSub needle haystack = true ↔ needle <:+: haystack := by
  induction haystack with
  | nil =>
    simp [containsSub, List.isEmpty_iff]
  | cons c rest ih =>
    simp only [containsSub, Bool.or_eq_true, List.isPrefixOf_iff_prefix, ih]
    constructor
    · rintro (h | h)
      · exact h.isInfix
      · exact h.trans (List.suffix_cons c rest).isInfix
    · intro h
      rcases h with ⟨s, t, hst⟩
      cases s with
      | nil => exact Or.inl ⟨t, by simpa using hst⟩
      | cons a s' =>
        right
        simp only [List.cons_append, List.cons.injEq] at hst
        exact ⟨s', t, hst.2⟩

theorem joinWords_succ_length (ws : List (List Char)) (h : ws ≠ []) :
    (joinWords ws).length + 1 = (ws.map List.length).sum + ws.length := by
  induction ws with
  | nil => exact absurd rfl h
  | cons w rest ih =>
    cases rest with
    | nil => simp [joinWords]
    | cons v rest' =>
      have := ih (by simp)
      simp only [joinWords, List.length_append, List.length_cons, List.map_cons,
        List.sum_cons] at this ⊢
      omega

theorem joinWords_take_le (ws : List (List Char)) (i : ℕ) :
    (joinWords (ws.take i)).length ≤ (joinWords ws).length := by
  cases htk : ws.take i with
  | nil => simp [joinWords]
  | cons w rest =>
    have hne : ws ≠ [] := by
      intro h
      rw [h, List.take_nil] at htk
      exact List.noConfusion htk
    have h1 := joinWords_succ_length (ws.take i) (by rw [htk]; simp)
    have h2 := joinWords_succ_length ws hne
    rw [← htk] at *
    have hsum : ((ws.take i).map List.length).sum ≤ (ws.map List.length).sum := by
      rw [List.map_take]
      have := List.sum_take_add_sum_drop (ws.map List.length) i
      omega
    have hlen : (ws.take i).length ≤ ws.length := by
      simp [List.length_take_le i ws]
    omega

/-- The total length of `splitWsAux s acc` joined with single spaces is bounded
by the remaining input plus the pending accumulator. -/
theorem joinWords_splitWsAux_length (s : List Char) :
    ∀ acc : List Char,
      (joinWords (splitWsAux s acc)).length ≤ s.length + acc.length := by
  induction s with
  | nil =>
    intro acc
    cases acc <;> simp [splitWsAux, joinWords, List.isEmpty]
  | cons c rest ih =>
    intro acc
    cases hws : c.isWhitespace with
    | false =>
      have := ih (c :: acc)
      simp only [splitWsAux, hws, if_false, List.length_cons, Bool.false_eq_true] at this ⊢
      omega
    | true =>
      cases acc with
      | nil =>
        have := ih []
        simp only [splitWsAux, hws, List.isEmpty, if_true, List.length_cons,
          List.length_nil] at this ⊢
        omega
      | cons a as =>
        have := ih []
        simp only [splitWsAux, hws, List.isEmpty, if_true, if_false, List.length_cons,
          List.length_nil, Bool.false_eq_true] at this ⊢
        cases hsplit : splitWsAux rest [] with
        | nil =>
          simp [joinWords]
        | cons w wrest =>
          rw [hsplit] at this
          simp only [joinWords, List.length_append, List.length_cons, List.length_reverse]
          omega

theorem joinWords_splitWs_length (s : List Char) :
    (joinWords (splitWs s)).length ≤ s.length := by
  simpa using joinWords_splitWsAux_length s []

theorem stripStr_length_le (s : List Char) : (stripStr s).length ≤ s.length := by
  unfold stripStr
  calc ((s.dropWhile Char.isWhitespace).reverse.dropWhile Char.isWhitespace).reverse.length
      = ((s.dropWhile Char.isWhitespace).reverse.dropWhile Char.isWhitespace).length := by
        simp
    _ ≤ (s.dropWhile Char.isWhitespace).reverse.length :=
        (List.dropWhile_sublist _).length_le
    _ = (s.dropWhile Char.isWhitespace).length := by simp
    _ ≤ s.length := (List.dropWhile_sublist _).length_le

/-! ## Data model (`models/enums.py`, `models/inputs.py`) -/

inductive Domain
  | SYMPTOM
  | FOOD
  | EMOTION
  | MIND
deriving DecidableEq

inductive Polarity
  | PRESENT
  | ABSENT
deriving DecidableEq

inductive AlertLevel
  | INFO
  | WARNING
  | CRITICAL
deriving DecidableEq

inductive CanaryAction
  | PASS
  | ALERT
  | HUMAN_REVIEW
  | ROLLBACK
deriving DecidableEq

inductive DriftStatus
  | STABLE
  | DRIFT
  | BREAKAGE
deriving DecidableEq

/-- `ParserItem` (pydantic model); `confidence` is a float in the source,
modelled as an exact rational. -/
structure ParserItem where
  domain : Domain
  text : List Char
  evidence_span : List Char
  polarity : Polarity
  time_bucket : List Char
  intensity_bucket : Option (List Char)
  arousal_bucket : Option (List Char)
  confidence : ℚ
deriving DecidableEq

structure ParserOutput where
  journal_id : List Char
  items : List ParserItem
deriving DecidableEq

/-- First-occurrence-order deduplication: the key order of a Python dict
built by repeated insertion. -/
def dedupKeepFirst {α : Type} [DecidableEq α] : List α → List α
  | [] => []
  | a :: rest => a :: (dedupKeepFirst rest).filter (· ≠ a)

theorem mem_dedupKeepFirst {α : Type} [DecidableEq α] (a : α) :
    ∀ l : List α, a ∈ dedupKeepFirst l ↔ a ∈ l := by
  intro l
  induction l with
  | nil => simp [dedupKeepFirst]
  | cons b rest ih =>
    by_cases hab : a = b
    · subst hab
      simp [dedupKeepFirst]
    · simp [dedupKeepFirst, hab, ih]

/-! ## `invariants/evidence_checker.py` -/

/-- `check_evidence_exists(evidence_span, journal_text)`: containment of the
lower-cased stripped span in the lower-cased text, else the partial rule:
the source iterates `i` over `range(len(words), 1, -1)` and returns `True`
for the first `" ".join(words[:i])` contained in the text with length
exceeding 5; the result equals this bounded existential (`any`), since the
loop's outcome does not depend on the iteration order. -/
def check_evidence_exists (evidence_span journal_text : List Char) : Bool :=
  let evidence := stripStr (lowerStr evidence_span)
  let text := lowerStr journal_text
  if containsSub evidence text then true
  else
    let words := splitWs evidence
    (List.range' 2 (words.length - 1)).any fun i =>
      let part := joinWords (words.take i)
      containsSub part text && decide (part.length > 5)

/-- One entry of the hallucination list built by `find_hallucinations`. -/
structure Hallucination where
  journal_id : List Char
  item_index : ℕ
  evidence_span : List Char
  domain : Domain
deriving DecidableEq

/-- `find_hallucinations(outputs, journals)`; the journal mapping is modelled
as a partial map, `journals.get(id, "")` becoming `(journals id).getD []`.
Returns `(rate, hallucinations, clustered counts)`; the `Counter` is modelled
as an association list in first-occurrence order. -/
def find_hallucinations (outputs : List ParserOutput)
    (journals : List Char → Option (List Char)) :
    ℚ × List Hallucination × List (List Char × ℕ) :=
  let total_items := (outputs.map fun o => o.items.length).sum
  let hallucinations := outputs.flatMap fun o =>
    let journal_text := (journals o.journal_id).getD []
    o.items.enum.filterMap fun x =>
      if check_evidence_exists x.2.evidence_span journal_text then none
      else some ⟨o.journal_id, x.1, x.2.evidence_span, x.2.domain⟩
  let rate : ℚ := if 0 < total_items then (hallucinations.length : ℚ) / total_items else 0
  let spans := hallucinations.map fun h => h.evidence_span
  (rate, hallucinations, (dedupKeepFirst spans).map fun s => (s, spans.count s))

/-! ## Theorems for the Grounding Matcher claims -/

/-- Helper: each partial prefix joined by the loop is no longer than the
stripped evidence itself. -/
theorem part_length_le_evidence (e : List Char) (i : ℕ) :
    (joinWords ((splitWs e).take i)).length ≤ e.length :=
  le_trans (joinWords_take_le (splitWs e) i) (joinWords_splitWs_length e)

/-- C1 (counterexample): the claim quantifies the length condition over the
span `S` rather than over the matched prefix.  For `S = "no ma today"`
(length 11 > 5) and `T = "she said no ma"`, the prefix `"no ma"` obtained by
dropping the trailing word is a (case-insensitive) substring of `T`, yet
`check_evidence_exists` returns `false`, because the matching prefix itself
has only 5 characters. -/
theorem check_evidence_partial_claim_false :
    check_evidence_exists "no ma today".toList "she said no ma".toList = false ∧
      "no ma today".toList.length > 5 ∧
      containsSub
        (joinWords ((splitWs (stripStr (lowerStr "no ma today".toList))).take 2))
        (lowerStr "she said no ma".toList) = true ∧
      containsSub (stripStr (lowerStr "no ma today".toList))
        (lowerStr "she said no ma".toList) = false := by
  decide

/-- C1 (amended): if some prefix of the normalized span obtained by dropping
trailing words, retaining at least two words and measuring more than 5
characters, is a substring of the lower-cased text, then
`check_evidence_exists` returns `true`. -/
theorem check_evidence_partial_match (S T : List Char) (k : ℕ)
    (hk2 : 2 ≤ k)
    (hklen : k ≤ (splitWs (stripStr (lowerStr S))).length)
    (hlen : 5 < (joinWords ((splitWs (stripStr (lowerStr S))).take k)).length)
    (hsub : containsSub (joinWords ((splitWs (stripStr (lowerStr S))).take k))
      (lowerStr T) = true) :
    check_evidence_exists S T = true := by
  unfold check_evidence_exists
  dsimp only
  cases hdirect : containsSub (stripStr (lowerStr S)) (lowerStr T) with
  | true => simp [hdirect]
  | false =>
    simp only [hdirect, Bool.false_eq_true, if_false, List.any_eq_true]
    refine ⟨k, ?_, ?_⟩
    · rw [List.mem_range'_1]
      omega
    · simp only [Bool.and_eq_true, decide_eq_true_eq]
      exact ⟨hsub, hlen⟩

/-- C1 (witness): the amended claim at `S = "no cramps today"`,
`T = "she had no cramps"`, `k = 2`. -/
theorem check_evidence_partial_match_witness :
    check_evidence_exists "no cramps today".toList "she had no cramps".toList = true :=
  check_evidence_partial_match _ _ 2 (by decide) (by decide) (by decide) (by decide)

/-- C9: a span whose stripped lower-cased form has at most 5 characters and
is not contained in the lower-cased text is never rescued by the partial
rule: every candidate prefix is at most as long as the stripped span, so the
`len(partial) > 5` guard fails. -/
theorem check_evidence_short_span_false (S T : List Char)
    (hlen : (stripStr (lowerStr S)).length ≤ 5)
    (hsub : containsSub (stripStr (lowerStr S)) (lowerStr T) = false) :
    check_evidence_exists S T = false := by
  unfold check_evidence_exists
  dsimp only
  rw [hsub]
  simp only [if_false, Bool.false_eq_true, List.any_eq_false]
  intro i hi
  have hple : (joinWords ((splitWs (stripStr (lowerStr S))).take i)).length ≤ 5 :=
    le_trans (part_length_le_evidence (stripStr (lowerStr S)) i) hlen
  simp only [Bool.and_eq_true, decide_eq_true_eq, not_and, not_lt]
  intro _
  exact hple

/-- C9 (witness): `S = "achy"`, `T = "slept well"`. -/
theorem check_evidence_short_span_false_witness :
    check_evidence_exists "achy".toList "slept well".toList = false :=
  check_evidence_short_span_false _ _ (by decide) (by decide)

/-- C3 (counterexample): the claim says `check_evidence_exists(S, "")` is
`false` for every span `S`; it is `true` for the empty span, since Python's
`"" in ""` holds. -/
theorem check_evidence_empty_claim_false :
    check_evidence_exists [] [] = true := by
  decide

/-- C3 (amended): for spans whose stripped lower-cased form is non-empty,
the empty journal text never grounds them, and an item of a journal missing
from the mapping (empty text) is reported as a hallucination. -/
theorem missing_journal_hallucination :
    (∀ S : List Char, stripStr (lowerStr S) ≠ [] →
      check_evidence_exists S [] = false) ∧
    (∀ (outputs : List ParserOutput) (journals : List Char → Option (List Char))
      (o : ParserOutput) (k : ℕ) (item : ParserItem),
      o ∈ outputs → journals o.journal_id = none → (k, item) ∈ o.items.enum →
      stripStr (lowerStr item.evidence_span) ≠ [] →
      (⟨o.journal_id, k, item.evidence_span, item.domain⟩ : Hallucination) ∈
        (find_hallucinations outputs journals).2.1) := by
  have hbase : ∀ S : List Char, stripStr (lowerStr S) ≠ [] →
      check_evidence_exists S [] = false := by
    intro S hne
    unfold check_evidence_exists
    dsimp only
    have hdirect : containsSub (stripStr (lowerStr S)) (lowerStr []) = false := by
      simp only [lowerStr, List.map_nil, containsSub]
      simpa [List.isEmpty_iff] using hne
    rw [hdirect]
    simp only [if_false, Bool.false_eq_true, List.any_eq_false]
    intro i hi
    simp only [lowerStr, List.map_nil, containsSub, Bool.and_eq_true, List.isEmpty_iff,
      decide_eq_true_eq, not_and]
    intro hpart
    rw [hpart]
    simp
  refine ⟨hbase, ?_⟩
  intro outputs journals o k item ho hnone hmem hne
  unfold find_hallucinations
  simp only [List.mem_flatMap]
  refine ⟨o, ho, ?_⟩
  simp only [List.mem_filterMap]
  refine ⟨(k, item), hmem, ?_⟩
  rw [hnone]
  simp only [Option.getD_none]
  rw [hbase item.evidence_span hne]
  simp

/-! ## `invariants/contradiction_checker.py` -/

/-- The span normalization `item.evidence_span.lower().strip()`. -/
def normSpan (s : List Char) : List Char :=
  stripStr (lowerStr s)

/-- One record of a contradiction's `conflicting_items`. -/
structure ContradictionItem where
  index : ℕ
  polarity : Polarity
  confidence : ℚ
  domain : Domain
deriving DecidableEq

structure Contradiction where
  journal_id : List Char
  evidence_span : List Char
  conflicting_items : List ContradictionItem
deriving DecidableEq

/-- The per-output body of `find_contradictions`: group the output's items by
normalized span (dict keys in first-occurrence order, values in item order),
and report every group holding at least two items with more than one distinct
polarity (`len(set(polarities)) > 1` becomes a `Finset` cardinality). -/
def outputContradictions (o : ParserOutput) : List Contradiction :=
  let enum := o.items.enum
  let keys := dedupKeepFirst (o.items.map fun it => normSpan it.evidence_span)
  keys.filterMap fun s =>
    let group := enum.filter fun x => decide (normSpan x.2.evidence_span = s)
    if 2 ≤ group.length ∧ 1 < ((group.map fun x => x.2.polarity).toFinset.card) then
      some ⟨o.journal_id, s,
        group.map fun x => ⟨x.1, x.2.polarity, x.2.confidence, x.2.domain⟩⟩
    else none

/-- `find_contradictions(outputs)`: contradiction rate and list. -/
def find_contradictions (outputs : List ParserOutput) : ℚ × List Contradiction :=
  let total_items := (outputs.map fun o => o.items.length).sum
  let contradictions := outputs.flatMap outputContradictions
  (if 0 < total_items then (contradictions.length : ℚ) / total_items else 0,
    contradictions)

/-! ### Helper lemmas for C2 -/

theorem two_mem_le_length {α : Type} {a b : α} :
    ∀ {l : List α}, a ∈ l → b ∈ l → a ≠ b → 2 ≤ l.length
  | [], ha, _, _ => by simp at ha
  | [x], ha, hb, hne => by
      simp only [List.mem_singleton] at ha hb
      exact absurd (ha.trans hb.symm) hne
  | _ :: _ :: _, _, _, _ => by
      simp only [List.length_cons]
      omega

theorem snd_mem_of_mem_enumFrom {α : Type} {p : ℕ × α} :
    ∀ {l : List α} {n : ℕ}, p ∈ l.enumFrom n → p.2 ∈ l := by
  intro l
  induction l with
  | nil =>
    intro n h
    simp [List.enumFrom] at h
  | cons a t ih =>
    intro n h
    simp only [List.enumFrom, List.mem_cons] at h
    rcases h with h | h
    · subst h
      simp
    · exact List.mem_cons_of_mem _ (ih h)

theorem snd_mem_of_mem_enum {α : Type} {p : ℕ × α} {l : List α}
    (h : p ∈ l.enum) : p.2 ∈ l :=
  snd_mem_of_mem_enumFrom h

/-- C2: within one journal's output, a normalized span carried by two items of
different polarity puts every item of that span group into the contradiction
list for that journal; and a journal all of whose items of a given span agree
in polarity yields no contradiction entry for that journal and span. -/
theorem find_contradictions_spec :
    (∀ (outputs : List ParserOutput) (o : ParserOutput), o ∈ outputs →
      ∀ a b : ℕ × ParserItem, a ∈ o.items.enum → b ∈ o.items.enum →
        normSpan a.2.evidence_span = normSpan b.2.evidence_span →
        a.2.polarity ≠ b.2.polarity →
        ∀ c : ℕ × ParserItem, c ∈ o.items.enum →
          normSpan c.2.evidence_span = normSpan a.2.evidence_span →
          ∃ entry ∈ (find_contradictions outputs).2,
            entry.journal_id = o.journal_id ∧
            entry.evidence_span = normSpan a.2.evidence_span ∧
            (⟨c.1, c.2.polarity, c.2.confidence, c.2.domain⟩ : ContradictionItem) ∈
              entry.conflicting_items) ∧
    (∀ (outputs : List ParserOutput) (J s : List Char),
      (∀ o ∈ outputs, o.journal_id = J →
        ∀ a ∈ o.items.enum, ∀ b ∈ o.items.enum,
          normSpan a.2.evidence_span = s → normSpan b.2.evidence_span = s →
          a.2.polarity = b.2.polarity) →
      ∀ entry ∈ (find_contradictions outputs).2,
        ¬(entry.journal_id = J ∧ entry.evidence_span = s)) := by
  constructor
  · intro outputs o ho a b ha hb hspan hpol c hc hcspan
    set s := normSpan a.2.evidence_span with hs
    set group := o.items.enum.filter fun x => decide (normSpan x.2.evidence_span = s)
      with hgroup
    have hga : a ∈ group := by
      rw [hgroup, List.mem_filter]
      exact ⟨ha, by simp [hs]⟩
    have hgb : b ∈ group := by
      rw [hgroup, List.mem_filter]
      exact ⟨hb, by simp [hspan.symm]⟩
    have hgc : c ∈ group := by
      rw [hgroup, List.mem_filter]
      exact ⟨hc, by simp [hcspan]⟩
    have hne : a ≠ b := fun h => hpol (by rw [h])
    have hcond : 2 ≤ group.length ∧
        1 < ((group.map fun x => x.2.polarity).toFinset.card) := by
      refine ⟨two_mem_le_length hga hgb hne, ?_⟩
      rw [Finset.one_lt_card]
      refine ⟨a.2.polarity, ?_, b.2.polarity, ?_, hpol⟩
      · rw [List.mem_toFinset]
        exact List.mem_map_of_mem _ hga
      · rw [List.mem_toFinset]
        exact List.mem_map_of_mem _ hgb
    refine ⟨⟨o.journal_id, s,
      group.map fun x => ⟨x.1, x.2.polarity, x.2.confidence, x.2.domain⟩⟩, ?_, rfl, rfl, ?_⟩
    · show _ ∈ outputs.flatMap outputContradictions
      rw [List.mem_flatMap]
      refine ⟨o, ho, ?_⟩
      unfold outputContradictions
      rw [List.mem_filterMap]
      refine ⟨s, ?_, ?_⟩
      · rw [mem_dedupKeepFirst]
        exact List.mem_map_of_mem _ (snd_mem_of_mem_enum ha)
      · rw [if_pos hcond]
    · exact List.mem_map_of_mem _ hgc
  · intro outputs J s hagree entry hentry ⟨hJ, hspan⟩
    have hentry' : entry ∈ outputs.flatMap outputContradictions := hentry
    rw [List.mem_flatMap] at hentry'
    obtain ⟨o, ho, hoentry⟩ := hentry'
    unfold outputContradictions at hoentry
    rw [List.mem_filterMap] at hoentry
    obtain ⟨s₀, hkey, hf⟩ := hoentry
    by_cases hcond : 2 ≤ (o.items.enum.filter fun x =>
        decide (normSpan x.2.evidence_span = s₀)).length ∧
        1 < (((o.items.enum.filter fun x =>
          decide (normSpan x.2.evidence_span = s₀)).map fun x => x.2.polarity).toFinset.card)
    · rw [if_pos hcond] at hf
      obtain ⟨hlen, hcard⟩ := hcond
      rw [Finset.one_lt_card] at hcard
      obtain ⟨p, hp, q, hq, hpq⟩ := hcard
      rw [List.mem_toFinset, List.mem_map] at hp hq
      obtain ⟨x, hx, hxp⟩ := hp
      obtain ⟨y, hy, hyq⟩ := hq
      rw [List.mem_filter, decide_eq_true_eq] at hx hy
      have heq := Option.some.inj hf
      have hJid : o.journal_id = J := by
        rw [← heq] at hJ
        exact hJ
      have hs₀ : s₀ = s := by
        rw [← heq] at hspan
        exact hspan
      apply hpq
      rw [← hxp, ← hyq]
      exact hagree o ho hJid x hx.1 y hy.1 (by rw [hx.2, hs₀]) (by rw [hy.2, hs₀])
    · rw [if_neg hcond] at hf
      exact Option.noConfusion hf

/-- Concrete data for the C2 witness: one journal, two items sharing the
span "no cramps today" with opposite polarity. -/
def crampsItemPresent : ParserItem :=
  ⟨Domain.SYMPTOM, "no cramps today".toList, "no cramps today".toList, Polarity.PRESENT,
    "today".toList, some "low".toList, none, 8/10⟩

def crampsItemAbsent : ParserItem :=
  ⟨Domain.SYMPTOM, "no cramps today".toList, "No cramps today ".toList, Polarity.ABSENT,
    "today".toList, some "low".toList, none, 7/10⟩

def crampsOutput : ParserOutput :=
  ⟨"j2".toList, [crampsItemPresent, crampsItemAbsent]⟩

/-- C2 (witness): the positive half of `find_contradictions_spec` applied to
the concrete two-item journal, reporting the second item of the group. -/
theorem find_contradictions_spec_witness :
    ∃ entry ∈ (find_contradictions [crampsOutput]).2,
      entry.journal_id = crampsOutput.journal_id ∧
      entry.evidence_span = normSpan crampsItemPresent.evidence_span ∧
      (⟨1, crampsItemAbsent.polarity, crampsItemAbsent.confidence,
        crampsItemAbsent.domain⟩ : ContradictionItem) ∈ entry.conflicting_items :=
  find_contradictions_spec.1 [crampsOutput] crampsOutput (by simp)
    (0, crampsItemPresent) (1, crampsItemAbsent)
    (by simp [crampsOutput, List.enum, List.enumFrom])
    (by simp [crampsOutput, List.enum, List.enumFrom])
    (by decide) (by decide)
    (1, crampsItemAbsent)
    (by simp [crampsOutput, List.enum, List.enumFrom])
    (by decide)

/-- Concrete data for the C3 witness. -/
def headacheItem : ParserItem :=
  ⟨Domain.SYMPTOM, "headache".toList, "headache".toList, Polarity.PRESENT,
    "today".toList, some "low".toList, none, 9/10⟩

def headacheOutput : ParserOutput :=
  ⟨"j1".toList, [headacheItem]⟩

/-- C3 (witness): a concrete snapshot with one item over a missing journal. -/
theorem missing_journal_hallucination_witness :
    check_evidence_exists "headache".toList [] = false ∧
    (⟨"j1".toList, 0, "headache".toList, Domain.SYMPTOM⟩ : Hallucination) ∈
      (find_hallucinations [headacheOutput] (fun _ => none)).2.1 :=
  ⟨missing_journal_hallucination.1 _ (by decide),
   missing_journal_hallucination.2 [headacheOutput] (fun _ => none)
     headacheOutput 0 headacheItem (by simp) rfl
     (by simp [headacheOutput, List.enum, List.enumFrom]) (by decide)⟩

/-! ## `human_loop/queue.py` -/

inductive ReviewState
  | PENDING
  | IN_REVIEW
  | APPROVED
  | REJECTED
  | ESCALATED
deriving DecidableEq

/-- `ReviewItem`; `created_at` is a timestamp in seconds and `confidence` a
float, both modelled as rationals. -/
structure ReviewItem where
  id : List Char
  journal_id : List Char
  violation_type : List Char
  severity : AlertLevel
  evidence_span : List Char
  details : List Char
  confidence : ℚ
  created_at : ℚ
  state : ReviewState
  assigned_to : Option (List Char)
  notes : List Char
deriving DecidableEq

/-- `config.human_review.escalation_timeout_hours` default. -/
def escalation_timeout_hours : ℚ := 24

/-- `ReviewQueue.mark_reviewed(item_id, approved, notes)`: walk the item list
in order, set the first item with matching id to APPROVED/REJECTED with the
given notes and return `True`; `False` (and no change) when no id matches.
The queue's mutable list is modelled by returning the updated list. -/
def mark_reviewed : List ReviewItem → List Char → Bool → List Char →
    Bool × List ReviewItem
  | [], _, _, _ => (false, [])
  | it :: rest, item_id, approved, notes =>
    if it.id = item_id then
      (true,
        {it with
          state := if approved then ReviewState.APPROVED else ReviewState.REJECTED,
          notes := notes} :: rest)
    else
      let r := mark_reviewed rest item_id approved notes
      (r.1, it :: r.2)

/-- The per-item test of `escalate_aged_items`: pending and older than the
escalation timeout, with `now` (the Python `datetime.now()`) a parameter. -/
def shouldEscalate (now : ℚ) (it : ReviewItem) : Bool :=
  it.state = ReviewState.PENDING &&
    decide ((now - it.created_at) / 3600 > escalation_timeout_hours)

/-- `ReviewQueue.escalate_aged_items()`: mutate every aged pending item to
ESCALATED and return them; modelled as (updated item list, escalated list). -/
def escalate_aged_items (now : ℚ) (items : List ReviewItem) :
    List ReviewItem × List ReviewItem :=
  (items.map fun it =>
      if shouldEscalate now it then {it with state := ReviewState.ESCALATED} else it,
   (items.filter (shouldEscalate now)).map fun it =>
      {it with state := ReviewState.ESCALATED})

/-! ### Helper lemmas for the queue claims -/

theorem mark_reviewed_found_iff (item_id : List Char) (approved : Bool)
    (notes : List Char) :
    ∀ items : List ReviewItem,
      (mark_reviewed items item_id approved notes).1 = true ↔
        ∃ it ∈ items, it.id = item_id := by
  intro items
  induction items with
  | nil => simp [mark_reviewed]
  | cons it rest ih =>
    by_cases h : it.id = item_id
    · simp [mark_reviewed, h]
    · simp [mark_reviewed, h, ih]

theorem mark_reviewed_not_found (item_id : List Char) (approved : Bool)
    (notes : List Char) :
    ∀ items : List ReviewItem,
      (mark_reviewed items item_id approved notes).1 = false →
        (mark_reviewed items item_id approved notes).2 = items := by
  intro items
  induction items with
  | nil => simp [mark_reviewed]
  | cons it rest ih =>
    by_cases h : it.id = item_id
    · simp [mark_reviewed, h]
    · simp only [mark_reviewed, h, if_false]
      intro hfalse
      rw [ih hfalse]

theorem mark_reviewed_found (item_id : List Char) (approved : Bool)
    (notes : List Char) :
    ∀ (items : List ReviewItem) (n : ℕ) (hn : n < items.length),
      items[n].id = item_id →
      (∀ m (hm : m < items.length), m < n → items[m].id ≠ item_id) →
      (mark_reviewed items item_id approved notes).2 =
        items.set n
          {items[n] with
            state := if approved then ReviewState.APPROVED else ReviewState.REJECTED,
            notes := notes} := by
  intro items
  induction items with
  | nil =>
    intro n hn
    simp at hn
  | cons it rest ih =>
    intro n hn hid hbefore
    cases n with
    | zero =>
      simp only [List.getElem_cons_zero] at hid
      simp [mark_reviewed, hid]
    | succ m =>
      have h0 : it.id ≠ item_id := by
        have := hbefore 0 (by simp) (Nat.succ_pos m)
        simpa using this
      simp only [List.getElem_cons_succ] at hid
      have hprior : ∀ k (hk : k < rest.length), k < m → rest[k].id ≠ item_id := by
        intro k hk hkm
        have := hbefore (k + 1) (by simpa using hk) (by omega)
        simpa using this
      simp only [mark_reviewed, h0, if_false]
      rw [ih m (by simpa using hn) hid hprior]
      simp

theorem mark_reviewed_length (item_id : List Char) (approved : Bool)
    (notes : List Char) :
    ∀ items : List ReviewItem,
      (mark_reviewed items item_id approved notes).2.length = items.length := by
  intro items
  induction items with
  | nil => simp [mark_reviewed]
  | cons it rest ih =>
    by_cases h : it.id = item_id
    · simp [mark_reviewed, h]
    · simp [mark_reviewed, h, ih]

theorem mark_reviewed_item_cases (item_id : List Char) (approved : Bool)
    (notes : List Char) :
    ∀ (items : List ReviewItem) (n : ℕ) (hn : n < items.length)
      (hn' : n < (mark_reviewed items item_id approved notes).2.length),
      (mark_reviewed items item_id approved notes).2[n] = items[n] ∨
        ((mark_reviewed items item_id approved notes).2[n]).state =
          (if approved then ReviewState.APPROVED else ReviewState.REJECTED) := by
  intro items
  induction items with
  | nil =>
    intro n hn
    simp at hn
  | cons it rest ih =>
    intro n hn hn'
    by_cases h : it.id = item_id
    · cases n with
      | zero =>
        right
        simp [mark_reviewed, h]
      | succ m =>
        left
        simp [mark_reviewed, h]
    · cases n with
      | zero =>
        left
        simp [mark_reviewed, h]
      | succ m =>
        have hm : m < rest.length := by simpa using hn
        have hm' : m < (mark_reviewed rest item_id approved notes).2.length := by
          rw [mark_reviewed_length]
          exact hm
        rcases ih m hm hm' with hcase | hcase
        · left
          simpa [mark_reviewed, h] using hcase
        · right
          simpa [mark_reviewed, h] using hcase

/-- C7 (counterexample data): an already-approved review item. -/
def approvedItem : ReviewItem :=
  ⟨"r1".toList, "j1".toList, "hallucination".toList, AlertLevel.CRITICAL,
    "e".toList, "d".toList, 0, 0, ReviewState.APPROVED, none, []⟩

/-- C7 (counterexample): `mark_reviewed` re-reviews items in terminal states,
so transitions are not one-directional outside PENDING: the APPROVED item is
moved to REJECTED and then back to APPROVED by two queue operations. -/
theorem review_transitions_claim_false :
    approvedItem.state = ReviewState.APPROVED ∧
    ReviewState.APPROVED ≠ ReviewState.PENDING ∧
    (mark_reviewed [approvedItem] "r1".toList false []).2.map ReviewItem.state =
      [ReviewState.REJECTED] ∧
    (mark_reviewed (mark_reviewed [approvedItem] "r1".toList false []).2
        "r1".toList true []).2.map ReviewItem.state = [ReviewState.APPROVED] := by
  decide

/-- C7 (amended): `escalate_aged_items` changes only PENDING items, and only
to ESCALATED; `mark_reviewed` leaves an item unchanged or sets its state to
APPROVED/REJECTED according to the flag, regardless of the previous state;
hence no operation ever moves an item's state back to PENDING. -/
theorem review_transitions_spec :
    (∀ (now : ℚ) (items : List ReviewItem) (n : ℕ) (hn : n < items.length)
      (hn' : n < (escalate_aged_items now items).1.length),
      (escalate_aged_items now items).1[n] = items[n] ∨
        (items[n].state = ReviewState.PENDING ∧
          (escalate_aged_items now items).1[n] =
            {items[n] with state := ReviewState.ESCALATED})) ∧
    (∀ (items : List ReviewItem) (item_id : List Char) (approved : Bool)
      (notes : List Char) (n : ℕ) (hn : n < items.length)
      (hn' : n < (mark_reviewed items item_id approved notes).2.length),
      (mark_reviewed items item_id approved notes).2[n] = items[n] ∨
        ((mark_reviewed items item_id approved notes).2[n]).state =
          (if approved then ReviewState.APPROVED else ReviewState.REJECTED)) ∧
    (∀ (now : ℚ) (items : List ReviewItem) (n : ℕ) (hn : n < items.length)
      (hn' : n < (escalate_aged_items now items).1.length),
      ((escalate_aged_items now items).1[n]).state = ReviewState.PENDING →
        items[n].state = ReviewState.PENDING) ∧
    (∀ (items : List ReviewItem) (item_id : List Char) (approved : Bool)
      (notes : List Char) (n : ℕ) (hn : n < items.length)
      (hn' : n < (mark_reviewed items item_id approved notes).2.length),
      ((mark_reviewed items item_id approved notes).2[n]).state = ReviewState.PENDING →
        items[n].state = ReviewState.PENDING) := by
  have hesc : ∀ (now : ℚ) (items : List ReviewItem) (n : ℕ)
      (hn : n < items.length) (hn' : n < (escalate_aged_items now items).1.length),
      (escalate_aged_items now items).1[n] = items[n] ∨
        (items[n].state = ReviewState.PENDING ∧
          (escalate_aged_items now items).1[n] =
            {items[n] with state := ReviewState.ESCALATED}) := by
    intro now items n hn hn'
    unfold escalate_aged_items
    rw [List.getElem_map]
    by_cases h : shouldEscalate now items[n] = true
    · right
      refine ⟨?_, by rw [if_pos h]⟩
      have := h
      unfold shouldEscalate at this
      simp only [Bool.and_eq_true, decide_eq_true_eq] at this
      exact this.1
    · left
      rw [if_neg h]
  refine ⟨hesc,
    fun items item_id approved notes => mark_reviewed_item_cases item_id approved notes items,
    ?_, ?_⟩
  · intro now items n hn hn' hpend
    rcases hesc now items n hn hn' with hcase | hcase
    · rw [← hcase]
      exact hpend
    · exact hcase.1
  · intro items item_id approved notes n hn hn' hpend
    rcases mark_reviewed_item_cases item_id approved notes items n hn hn' with
      hcase | hcase
    · rw [← hcase]
      exact hpend
    · rw [hcase] at hpend
      cases approved <;> simp at hpend

/-- C7 (witness data): a pending item created at time 0. -/
def pendingItem : ReviewItem :=
  ⟨"r2".toList, "j1".toList, "contradiction".toList, AlertLevel.CRITICAL,
    "e".toList, "d".toList, 0, 0, ReviewState.PENDING, none, []⟩

/-- C7 (witness): the amended claim evaluated on a one-item queue whose
pending item is escalated after 48 hours. -/
theorem review_transitions_spec_witness :
    ((escalate_aged_items (48 * 3600) [pendingItem]).1.get ⟨0, by decide⟩ = pendingItem) ∨
    (pendingItem.state = ReviewState.PENDING ∧
      (escalate_aged_items (48 * 3600) [pendingItem]).1.get ⟨0, by decide⟩ =
        {pendingItem with state := ReviewState.ESCALATED}) :=
  review_transitions_spec.1 (48 * 3600) [pendingItem] 0 (by decide) (by decide)

/-- C10: `mark_reviewed` returns true iff some queued item has the id; on
false nothing changes; on true exactly the first matching item is set to
APPROVED/REJECTED with its notes overwritten, all other items unchanged. -/
theorem mark_reviewed_spec :
    (∀ (items : List ReviewItem) (item_id : List Char) (approved : Bool)
      (notes : List Char),
      ((mark_reviewed items item_id approved notes).1 = true ↔
        ∃ it ∈ items, it.id = item_id)) ∧
    (∀ (items : List ReviewItem) (item_id : List Char) (approved : Bool)
      (notes : List Char),
      (mark_reviewed items item_id approved notes).1 = false →
        (mark_reviewed items item_id approved notes).2 = items) ∧
    (∀ (items : List ReviewItem) (item_id : List Char) (approved : Bool)
      (notes : List Char) (n : ℕ) (hn : n < items.length),
      items[n].id = item_id →
      (∀ m (hm : m < items.length), m < n → items[m].id ≠ item_id) →
      (mark_reviewed items item_id approved notes).2 =
        items.set n
          {items[n] with
            state := if approved then ReviewState.APPROVED else ReviewState.REJECTED,
            notes := notes}) :=
  ⟨fun items item_id approved notes => mark_reviewed_found_iff item_id approved notes items,
   fun items item_id approved notes => mark_reviewed_not_found item_id approved notes items,
   fun items item_id approved notes n hn =>
     mark_reviewed_found item_id approved notes items n hn⟩

/-- C10 (witness): marking the only item of a one-item queue approved. -/
theorem mark_reviewed_spec_witness :
    (mark_reviewed [approvedItem] "r1".toList true "ok".toList).2 =
      [approvedItem].set 0
        {approvedItem with state := ReviewState.APPROVED, notes := "ok".toList} :=
  mark_reviewed_spec.2.2 [approvedItem] "r1".toList true "ok".toList 0 (by decide)
    (by decide) (by intro m hm hm0; omega)

/-! ## `canary/runner.py` and its collaborators -/

structure GoldItem where
  domain : Domain
  evidence_span : List Char
  polarity : Polarity
  time_bucket : List Char
  intensity_bucket : Option (List Char)
  arousal_bucket : Option (List Char)
deriving DecidableEq

structure GoldLabel where
  journal_id : List Char
  items : List GoldItem
deriving DecidableEq

structure CanaryJournalResult where
  journal_id : List Char
  gold_count : ℕ
  parser_count : ℕ
  matched : ℕ
  missed : ℕ
  extra : ℕ
deriving DecidableEq

/-- Rounding to `d` decimal places (`round(x, d)`), on exact rationals. -/
def roundQ (d : ℕ) (x : ℚ) : ℚ :=
  ((round (x * 10 ^ d) : ℤ) : ℚ) / 10 ^ d

/-- A Python dict built by inserting the pairs of `l` in order: keys in
first-occurrence order, each mapped to its last assigned value. -/
def pyDict {β : Type} (l : List (List Char × β)) : List (List Char × β) :=
  (dedupKeepFirst (l.map fun kv => kv.1)).filterMap fun k =>
    (l.reverse.find? fun kv => decide (kv.1 = k)).map fun kv => (k, kv.2)

/-- Modelled from the spec: `canary/matcher.py` is not among the sources.
Spec §4.5: an extracted item matches a gold item when domain, polarity and
normalized evidence span agree. -/
def itemMatches (p : ParserItem) (g : GoldItem) : Bool :=
  decide (p.domain = g.domain) && decide (p.polarity = g.polarity) &&
    decide (normSpan p.evidence_span = normSpan g.evidence_span)

/-- Remove the first gold item matching `p`, if any. -/
def removeFirstMatch (p : ParserItem) : List GoldItem → Option (List GoldItem)
  | [] => none
  | g :: rest =>
    if itemMatches p g then some rest
    else (removeFirstMatch p rest).map fun r => g :: r

/-- Modelled from the spec: the count of mutually matched pairs, each gold
item consumed at most once (spec §4.5: "a bipartite one-to-one matching"),
realized greedily in item order. -/
def countMatched : List ParserItem → List GoldItem → ℕ
  | [], _ => 0
  | p :: ps, golds =>
    match removeFirstMatch p golds with
    | some golds' => 1 + countMatched ps golds'
    | none => countMatched ps golds

/-- Modelled from the spec: `match_items(parser_items, gold_items)` returns
`(matched, missed, extra)` with `missed` the unmatched gold items and
`extra` the unmatched parser items. -/
def match_items (parser_items : List ParserItem) (gold_items : List GoldItem) :
    ℕ × ℕ × ℕ :=
  let matched := countMatched parser_items gold_items
  (matched, gold_items.length - matched, parser_items.length - matched)

/-- Modelled from the spec: `compute_precision_recall_f1` per §4.5 with the
zero-denominator conventions (F1 = 0 when precision + recall = 0). -/
def compute_precision_recall_f1 (matched missed extra : ℕ) : ℚ × ℚ × ℚ :=
  let precision : ℚ := if matched + extra = 0 then 0 else (matched : ℚ) / (matched + extra)
  let recall' : ℚ := if matched + missed = 0 then 0 else (matched : ℚ) / (matched + missed)
  let f1 : ℚ :=
    if precision + recall' = 0 then 0 else 2 * precision * recall' / (precision + recall')
  (precision, recall', f1)

/-- `config.canary` defaults. -/
def f1_pass : ℚ := 7/10
def f1_alert : ℚ := 6/10
def f1_human_review : ℚ := 5/10
def f1_rollback : ℚ := 4/10
def min_evidence_match : ℚ := 8/10

/-- Modelled from the spec: `compute_evidence_match_rate`, the fraction of
parser items whose span ground-checks true against some gold span. -/
def compute_evidence_match_rate (parser_items : List ParserItem)
    (gold_items : List GoldItem) : ℚ :=
  if parser_items.length = 0 then 0
  else ((parser_items.filter fun p =>
    gold_items.any fun g => check_evidence_exists p.evidence_span g.evidence_span).length : ℚ) /
    parser_items.length

/-- Modelled from the spec: `determine_action` maps F1 to an action tier from
highest threshold down, with a low evidence-match rate forcing ROLLBACK
(§4.5's independent override); the textual reason is presentation and
omitted. -/
def determine_action (f1 evidence_rate : ℚ) : CanaryAction :=
  if evidence_rate < min_evidence_match then CanaryAction.ROLLBACK
  else if f1_pass ≤ f1 then CanaryAction.PASS
  else if f1_alert ≤ f1 then CanaryAction.ALERT
  else if f1_human_review ≤ f1 then CanaryAction.HUMAN_REVIEW
  else CanaryAction.ROLLBACK

/-- `CanaryReport` without the run-id/timestamp/threshold-echo metadata
(generated from `datetime.now()` and `uuid`, environment dependent). -/
structure CanaryReport where
  precision : ℚ
  recall' : ℚ
  f1 : ℚ
  evidence_match_rate : ℚ
  matched_count : ℕ
  missed_count : ℕ
  extra_count : ℕ
  action : CanaryAction
  per_journal : List CanaryJournalResult
deriving DecidableEq

/-- The `for journal_id in gold_by_id` loop of `run_canary_evaluation`:
accumulates `(total_matched, total_missed, total_extra)` and appends one
`CanaryJournalResult` per gold journal; a journal with no parser output
counts all gold items missed with zero matched/extra. -/
def canaryLoop (parser_by : List (List Char × ParserOutput)) :
    List (List Char × GoldLabel) → (ℕ × ℕ × ℕ) × List CanaryJournalResult
  | [] => ((0, 0, 0), [])
  | (j, gold) :: rest =>
    let r := canaryLoop parser_by rest
    match parser_by.find? fun kv => decide (kv.1 = j) with
    | none =>
      let missed := gold.items.length
      ((r.1.1, r.1.2.1 + missed, r.1.2.2),
        ⟨j, gold.items.length, 0, 0, missed, 0⟩ :: r.2)
    | some kv =>
      let m := match_items kv.2.items gold.items
      ((r.1.1 + m.1, r.1.2.1 + m.2.1, r.1.2.2 + m.2.2),
        ⟨j, gold.items.length, kv.2.items.length, m.1, m.2.1, m.2.2⟩ :: r.2)

/-- `run_canary_evaluation(parser_outputs, gold_labels)`. -/
def run_canary_evaluation (parser_outputs : List ParserOutput)
    (gold_labels : List GoldLabel) : CanaryReport :=
  let parser_by := pyDict (parser_outputs.map fun o => (o.journal_id, o))
  let gold_by := pyDict (gold_labels.map fun g => (g.journal_id, g))
  let r := canaryLoop parser_by gold_by
  let prf := compute_precision_recall_f1 r.1.1 r.1.2.1 r.1.2.2
  let all_parser_items := (parser_outputs.filter fun o =>
    (gold_by.map fun kv => kv.1).contains o.journal_id).flatMap fun o => o.items
  let all_gold_items := gold_labels.flatMap fun g => g.items
  let evidence_rate := compute_evidence_match_rate all_parser_items all_gold_items
  { precision := roundQ 3 prf.1
    recall' := roundQ 3 prf.2.1
    f1 := roundQ 3 prf.2.2
    evidence_match_rate := roundQ 3 evidence_rate
    matched_count := r.1.1
    missed_count := r.1.2.1
    extra_count := r.1.2.2
    action := determine_action prf.2.2 evidence_rate
    per_journal := r.2 }

/-! ### Helper lemmas for C8 -/

theorem mem_pyDict_mem {β : Type} {kv : List Char × β} {l : List (List Char × β)}
    (h : kv ∈ pyDict l) : kv ∈ l := by
  unfold pyDict at h
  rw [List.mem_filterMap] at h
  obtain ⟨k, _, hfind⟩ := h
  rw [Option.map_eq_some'] at hfind
  obtain ⟨kv', hkv', heq⟩ := hfind
  have hmem := List.mem_of_find?_eq_some hkv'
  have hk := List.find?_some hkv'
  rw [decide_eq_true_eq] at hk
  rw [List.mem_reverse] at hmem
  rw [← heq]
  rw [← hk]
  exact hmem

theorem pyDict_key_mem {β : Type} {l : List (List Char × β)} {k : List Char}
    (h : k ∈ l.map fun kv => kv.1) : ∃ v, (k, v) ∈ pyDict l := by
  unfold pyDict
  have hfind : (l.reverse.find? fun kv => decide (kv.1 = k)).isSome := by
    rw [List.find?_isSome]
    rw [List.mem_map] at h
    obtain ⟨kv, hkv, hk⟩ := h
    exact ⟨kv, by rw [List.mem_reverse]; exact hkv, by simp [hk]⟩
  obtain ⟨kv, hkv⟩ := Option.isSome_iff_exists.mp hfind
  refine ⟨kv.2, ?_⟩
  rw [List.mem_filterMap]
  refine ⟨k, by rw [mem_dedupKeepFirst]; exact h, ?_⟩
  rw [hkv]
  rfl

theorem canaryLoop_totals (parser_by : List (List Char × ParserOutput)) :
    ∀ golds : List (List Char × GoldLabel),
      (canaryLoop parser_by golds).1.1 =
        ((canaryLoop parser_by golds).2.map fun e => e.matched).sum ∧
      (canaryLoop parser_by golds).1.2.1 =
        ((canaryLoop parser_by golds).2.map fun e => e.missed).sum ∧
      (canaryLoop parser_by golds).1.2.2 =
        ((canaryLoop parser_by golds).2.map fun e => e.extra).sum := by
  intro golds
  induction golds with
  | nil => simp [canaryLoop]
  | cons jg rest ih =>
    obtain ⟨j, gold⟩ := jg
    cases hfind : parser_by.find? fun kv => decide (kv.1 = j) with
    | none =>
      simp only [canaryLoop, hfind, List.map_cons, List.sum_cons]
      omega
    | some kv =>
      simp only [canaryLoop, hfind, List.map_cons, List.sum_cons]
      omega

theorem canaryLoop_entry_of_missing (parser_by : List (List Char × ParserOutput))
    {J : List Char} {g : GoldLabel}
    (hfind : (parser_by.find? fun kv => decide (kv.1 = J)) = none) :
    ∀ golds : List (List Char × GoldLabel), (J, g) ∈ golds →
      (⟨J, g.items.length, 0, 0, g.items.length, 0⟩ : CanaryJournalResult) ∈
        (canaryLoop parser_by golds).2 := by
  intro golds
  induction golds with
  | nil => simp
  | cons jg rest ih =>
    intro hmem
    obtain ⟨j, gold⟩ := jg
    rw [List.mem_cons] at hmem
    rcases hmem with heq | hmem
    · rw [Prod.mk.injEq] at heq
      obtain ⟨hj, hg⟩ := heq
      subst hj
      subst hg
      simp only [canaryLoop, hfind]
      exact List.mem_cons_self _ _
    · have := ih hmem
      cases hfind' : parser_by.find? fun kv => decide (kv.1 = j) with
      | none =>
        simp only [canaryLoop, hfind']
        exact List.mem_cons_of_mem _ this
      | some kv =>
        simp only [canaryLoop, hfind']
        exact List.mem_cons_of_mem _ this

/-- C8: a journal id in the gold labels but absent from the parser outputs
contributes a per-journal result with all gold items missed and zero
matched/extra, and the aggregate totals are exactly the per-journal sums. -/
theorem canary_missing_journal_spec
    (parser_outputs : List ParserOutput) (gold_labels : List GoldLabel)
    (J : List Char)
    (hgold : ∃ g ∈ gold_labels, g.journal_id = J)
    (hparser : ∀ o ∈ parser_outputs, o.journal_id ≠ J) :
    (∃ g ∈ gold_labels, g.journal_id = J ∧
      (⟨J, g.items.length, 0, 0, g.items.length, 0⟩ : CanaryJournalResult) ∈
        (run_canary_evaluation parser_outputs gold_labels).per_journal) ∧
    (run_canary_evaluation parser_outputs gold_labels).matched_count =
      (((run_canary_evaluation parser_outputs gold_labels).per_journal.map
        fun e => e.matched).sum) ∧
    (run_canary_evaluation parser_outputs gold_labels).missed_count =
      (((run_canary_evaluation parser_outputs gold_labels).per_journal.map
        fun e => e.missed).sum) ∧
    (run_canary_evaluation parser_outputs gold_labels).extra_count =
      (((run_canary_evaluation parser_outputs gold_labels).per_journal.map
        fun e => e.extra).sum) := by
  have hfind : ((pyDict (parser_outputs.map fun o => (o.journal_id, o))).find?
      fun kv => decide (kv.1 = J)) = none := by
    rw [List.find?_eq_none]
    intro kv hkv
    have hmem := mem_pyDict_mem hkv
    rw [List.mem_map] at hmem
    obtain ⟨o, ho, heq⟩ := hmem
    rw [decide_eq_true_eq]
    rw [← heq]
    exact hparser o ho
  constructor
  · obtain ⟨g, hgmem, hgid⟩ := hgold
    have hkey : J ∈ (gold_labels.map fun gl => (gl.journal_id, gl)).map fun kv => kv.1 := by
      rw [List.map_map]
      rw [List.mem_map]
      exact ⟨g, hgmem, hgid⟩
    obtain ⟨g', hg'⟩ := pyDict_key_mem hkey
    have hg'mem := mem_pyDict_mem hg'
    rw [List.mem_map] at hg'mem
    obtain ⟨g'', hg''mem, hg''eq⟩ := hg'mem
    rw [Prod.mk.injEq] at hg''eq
    obtain ⟨hid, hval⟩ := hg''eq
    subst hval
    refine ⟨g'', hg''mem, hid, ?_⟩
    show _ ∈ (canaryLoop (pyDict (parser_outputs.map fun o => (o.journal_id, o)))
      (pyDict (gold_labels.map fun g => (g.journal_id, g)))).2
    exact canaryLoop_entry_of_missing _ hfind _ hg'
  · have h := canaryLoop_totals (pyDict (parser_outputs.map fun o => (o.journal_id, o)))
      (pyDict (gold_labels.map fun g => (g.journal_id, g)))
    exact h

/-- C8 (witness): one gold journal, empty parser output set. -/
theorem canary_missing_journal_spec_witness :
    ∃ g ∈ [(⟨"g1".toList,
        [⟨Domain.SYMPTOM, "cough".toList, Polarity.PRESENT, "today".toList,
          some "low".toList, none⟩]⟩ : GoldLabel)], g.journal_id = "g1".toList ∧
      (⟨"g1".toList, g.items.length, 0, 0, g.items.length, 0⟩ : CanaryJournalResult) ∈
        (run_canary_evaluation []
          [⟨"g1".toList,
            [⟨Domain.SYMPTOM, "cough".toList, Polarity.PRESENT, "today".toList,
              some "low".toList, none⟩]⟩]).per_journal :=
  (canary_missing_journal_spec []
    [⟨"g1".toList,
      [⟨Domain.SYMPTOM, "cough".toList, Polarity.PRESENT, "today".toList,
        some "low".toList, none⟩]⟩]
    "g1".toList (by simp) (by simp)).1

/-! ## `analytics/advanced.py`: Wilson score interval

Float arithmetic is modelled over exact reals; Python's `round(x, 4)` is
modelled by rounding to the nearest multiple of `10⁻⁴` (Python breaks exact
ties to even, Mathlib's `round` breaks them upward; no value considered here
sits on a tie). -/

noncomputable def round4 (x : ℝ) : ℝ :=
  ((round (x * 10 ^ 4) : ℤ) : ℝ) / 10 ^ 4

/-- The z-score chosen by `compute_confidence_intervals`: 1.96 for 95%
confidence, 2.576 otherwise. -/
noncomputable def wilson_z (confidence : ℝ) : ℝ :=
  if confidence = 95/100 then 196/100 else 2576/1000

/-- `center = (rate + z²/(2n)) / (1 + z²/n)`. -/
noncomputable def wilson_center (rate : ℝ) (n : ℕ) (confidence : ℝ) : ℝ :=
  (rate + (wilson_z confidence) ^ 2 / (2 * n)) / (1 + (wilson_z confidence) ^ 2 / n)

/-- `margin = z·√((rate(1−rate) + z²/(4n))/n) / (1 + z²/n)`. -/
noncomputable def wilson_margin (rate : ℝ) (n : ℕ) (confidence : ℝ) : ℝ :=
  wilson_z confidence *
    Real.sqrt ((rate * (1 - rate) + (wilson_z confidence) ^ 2 / (4 * n)) / n) /
    (1 + (wilson_z confidence) ^ 2 / n)

/-- `lower = max(0, center - margin)`. -/
noncomputable def wilson_lower (rate : ℝ) (n : ℕ) (confidence : ℝ) : ℝ :=
  max 0 (wilson_center rate n confidence - wilson_margin rate n confidence)

/-- `upper = min(1, center + margin)`. -/
noncomputable def wilson_upper (rate : ℝ) (n : ℕ) (confidence : ℝ) : ℝ :=
  min 1 (wilson_center rate n confidence + wilson_margin rate n confidence)

/-- `compute_confidence_intervals(rate, sample_size, confidence)`: `(0,0,0)`
for an empty sample, otherwise the Wilson bounds clamped to `[0,1]` and
rounded to 4 decimal places. -/
noncomputable def compute_confidence_intervals (rate : ℝ) (sample_size : ℕ)
    (confidence : ℝ) : ℝ × ℝ × ℝ :=
  if sample_size = 0 then (0, 0, 0)
  else
    (round4 (wilson_lower rate sample_size confidence),
     round4 (wilson_upper rate sample_size confidence),
     round4 (wilson_margin rate sample_size confidence))

/-! ### Helper lemmas for the Wilson claims -/

theorem wilson_z_nonneg (confidence : ℝ) : 0 ≤ wilson_z confidence := by
  unfold wilson_z
  split <;> norm_num

theorem wilson_denom_pos (n : ℕ) (confidence : ℝ) :
    0 < 1 + (wilson_z confidence) ^ 2 / n := by
  have hz := sq_nonneg (wilson_z confidence)
  have hn : (0:ℝ) ≤ (n:ℝ) := Nat.cast_nonneg n
  positivity

theorem wilson_margin_nonneg (rate : ℝ) (n : ℕ) (confidence : ℝ) :
    0 ≤ wilson_margin rate n confidence := by
  unfold wilson_margin
  have hz := wilson_z_nonneg confidence
  have hs := Real.sqrt_nonneg
    ((rate * (1 - rate) + (wilson_z confidence) ^ 2 / (4 * n)) / n)
  have hd := wilson_denom_pos n confidence
  positivity

/-- The heart of the Wilson interval: the centre differs from the rate by at
most the margin, for rates within `[0,1]` and a positive sample. -/
theorem wilson_center_sub_rate_abs_le (rate : ℝ) (n : ℕ) (confidence : ℝ)
    (hn : 0 < n) (h0 : 0 ≤ rate) (h1 : rate ≤ 1) :
    |wilson_center rate n confidence - rate| ≤ wilson_margin rate n confidence := by
  set z := wilson_z confidence with hzdef
  have hz : 0 ≤ z := wilson_z_nonneg confidence
  have hnR : (0:ℝ) < (n:ℝ) := by exact_mod_cast hn
  have hd : 0 < 1 + z ^ 2 / n := wilson_denom_pos n confidence
  set E := (rate * (1 - rate) + z ^ 2 / (4 * n)) / n with hEdef
  have hE : 0 ≤ E := by
    have hr : 0 ≤ rate * (1 - rate) := mul_nonneg h0 (by linarith)
    have hq : 0 ≤ z ^ 2 / (4 * n) := by positivity
    positivity
  have hkey : |wilson_center rate n confidence - rate| * (1 + z ^ 2 / n) ≤
      wilson_margin rate n confidence * (1 + z ^ 2 / n) := by
    have hcenter : (wilson_center rate n confidence - rate) * (1 + z ^ 2 / n) =
        z ^ 2 / n * (1 / 2 - rate) := by
      unfold wilson_center
      rw [← hzdef]
      field_simp
      ring
    have hmargin : wilson_margin rate n confidence * (1 + z ^ 2 / n) =
        z * Real.sqrt E := by
      unfold wilson_margin
      rw [← hzdef, ← hEdef]
      field_simp
    have hstep : |wilson_center rate n confidence - rate| * (1 + z ^ 2 / n) =
        |z ^ 2 / n * (1 / 2 - rate)| := by
      rw [← abs_of_pos hd, ← abs_mul, hcenter]
    rw [hstep, hmargin]
    have hsq : (z ^ 2 / n * (1 / 2 - rate)) ^ 2 ≤ z ^ 2 * E := by
      rw [hEdef]
      have hr : 0 ≤ rate * (1 - rate) := mul_nonneg h0 (by linarith)
      have key : z ^ 2 * ((rate * (1 - rate) + z ^ 2 / (4 * (n:ℝ))) / n) -
          (z ^ 2 / n * (1 / 2 - rate)) ^ 2 =
          z ^ 2 * (rate * (1 - rate)) / n + z ^ 4 * (rate * (1 - rate)) / (n:ℝ) ^ 2 := by
        field_simp
        ring
      have t1 : 0 ≤ z ^ 2 * (rate * (1 - rate)) / n :=
        div_nonneg (mul_nonneg (sq_nonneg z) hr) hnR.le
      have t2 : 0 ≤ z ^ 4 * (rate * (1 - rate)) / (n:ℝ) ^ 2 :=
        div_nonneg (mul_nonneg (by positivity) hr) (by positivity)
      linarith
    rw [← Real.sqrt_sq_eq_abs]
    calc Real.sqrt ((z ^ 2 / n * (1 / 2 - rate)) ^ 2)
        ≤ Real.sqrt (z ^ 2 * E) := Real.sqrt_le_sqrt hsq
      _ = z * Real.sqrt E := by
          rw [Real.sqrt_mul (sq_nonneg z), Real.sqrt_sq hz]
  exact le_of_mul_le_mul_right hkey hd

/-- C6 (amended): `(0,0,0)` on an empty sample; for a positive sample and a
rate in `[0,1]` the pre-rounding Wilson bounds satisfy
`0 ≤ lower ≤ rate ≤ upper ≤ 1`, and the returned (4-decimal rounded) bounds
satisfy the same chain up to `5·10⁻⁵`. -/
theorem compute_confidence_intervals_spec (rate : ℝ) (n : ℕ) (confidence : ℝ)
    (hn : 0 < n) (h0 : 0 ≤ rate) (h1 : rate ≤ 1) :
    compute_confidence_intervals rate 0 confidence = (0, 0, 0) ∧
    0 ≤ wilson_lower rate n confidence ∧
    wilson_lower rate n confidence ≤ rate ∧
    rate ≤ wilson_upper rate n confidence ∧
    wilson_upper rate n confidence ≤ 1 ∧
    (compute_confidence_intervals rate n confidence).1 ≤ rate + 1/20000 ∧
    rate - 1/20000 ≤ (compute_confidence_intervals rate n confidence).2.1 := by
  have habs := wilson_center_sub_rate_abs_le rate n confidence hn h0 h1
  rw [abs_le] at habs
  have hlower : wilson_lower rate n confidence ≤ rate := by
    unfold wilson_lower
    exact max_le h0 (by linarith [habs.2])
  have hupper : rate ≤ wilson_upper rate n confidence := by
    unfold wilson_upper
    exact le_min h1 (by linarith [habs.1])
  have hround : ∀ x : ℝ, |round4 x - x| ≤ 1/20000 := by
    intro x
    unfold round4
    have h := abs_sub_round (x * 10 ^ 4)
    rw [show ((round (x * 10 ^ 4) : ℤ) : ℝ) / 10 ^ 4 - x =
      (((round (x * 10 ^ 4) : ℤ) : ℝ) - x * 10 ^ 4) / 10 ^ 4 by ring]
    rw [abs_div]
    rw [abs_of_pos (by norm_num : (0:ℝ) < 10 ^ 4)]
    rw [div_le_iff (by norm_num : (0:ℝ) < 10 ^ 4)]
    calc |((round (x * 10 ^ 4) : ℤ) : ℝ) - x * 10 ^ 4| =
          |x * 10 ^ 4 - ((round (x * 10 ^ 4) : ℤ) : ℝ)| := abs_sub_comm _ _
      _ ≤ 1/2 := h
      _ ≤ 1/20000 * 10 ^ 4 := by norm_num
  have hne : n ≠ 0 := Nat.pos_iff_ne_zero.mp hn
  refine ⟨by unfold compute_confidence_intervals; rw [if_pos rfl],
    le_max_left _ _, hlower, hupper, min_le_left _ _, ?_, ?_⟩
  · unfold compute_confidence_intervals
    rw [if_neg hne]
    have := abs_le.mp (hround (wilson_lower rate n confidence))
    dsimp only
    linarith [this.1, this.2]
  · unfold compute_confidence_intervals
    rw [if_neg hne]
    have := abs_le.mp (hround (wilson_upper rate n confidence))
    dsimp only
    linarith [this.1, this.2]

/-- C6 (witness): the amended claim at `rate = 1/2`, `sampleSize = 4`. -/
theorem compute_confidence_intervals_spec_witness :
    compute_confidence_intervals (1/2) 0 (95/100) = (0, 0, 0) ∧
    0 ≤ wilson_lower (1/2) 4 (95/100) ∧
    wilson_lower (1/2) 4 (95/100) ≤ 1/2 ∧
    (1/2 : ℝ) ≤ wilson_upper (1/2) 4 (95/100) ∧
    wilson_upper (1/2) 4 (95/100) ≤ 1 ∧
    (compute_confidence_intervals (1/2) 4 (95/100)).1 ≤ 1/2 + 1/20000 ∧
    (1/2 : ℝ) - 1/20000 ≤ (compute_confidence_intervals (1/2) 4 (95/100)).2.1 :=
  compute_confidence_intervals_spec (1/2) 4 (95/100) (by norm_num) (by norm_num)
    (by norm_num)

/-- C6 (counterexample): the *returned* lower bound is the Wilson lower bound
rounded to 4 decimal places, and rounding can push it above the rate: at
`rate = 6·10⁻⁵`, `sampleSize = 10⁷`, the exact lower bound is ≈ 5.539·10⁻⁵,
which rounds to `10⁻⁴ > rate`, violating `lowerBound ≤ rate`. -/
theorem compute_confidence_intervals_claim_false :
    (3/50000 : ℝ) ∈ Set.Icc (0:ℝ) 1 ∧ 0 < (10 ^ 7 : ℕ) ∧
      (compute_confidence_intervals (3/50000) (10 ^ 7) (95/100)).1 > 3/50000 := by
  refine ⟨by constructor <;> norm_num, by norm_num, ?_⟩
  unfold compute_confidence_intervals
  rw [if_neg (by norm_num)]
  dsimp only
  have hz : wilson_z (95/100) = 196/100 := by
    unfold wilson_z
    rw [if_pos rfl]
  have hsqrt : Real.sqrt (((3/50000 : ℝ) * (1 - 3/50000) +
      (196/100) ^ 2 / (4 * (10 ^ 7 : ℕ))) / (10 ^ 7 : ℕ)) ≤ 24514/10 ^ 10 := by
    have hle : ((3/50000 : ℝ) * (1 - 3/50000) +
        (196/100) ^ 2 / (4 * (10 ^ 7 : ℕ))) / (10 ^ 7 : ℕ) ≤ (24514/10 ^ 10) ^ 2 := by
      push_cast
      norm_num
    calc Real.sqrt (((3/50000 : ℝ) * (1 - 3/50000) +
          (196/100) ^ 2 / (4 * (10 ^ 7 : ℕ))) / (10 ^ 7 : ℕ))
        ≤ Real.sqrt ((24514/10 ^ 10) ^ 2) := Real.sqrt_le_sqrt hle
      _ = 24514/10 ^ 10 := Real.sqrt_sq (by norm_num)
  have hmargin : wilson_margin (3/50000) (10 ^ 7) (95/100) ≤ 481/10 ^ 8 := by
    unfold wilson_margin
    rw [hz]
    have hd : (1:ℝ) ≤ 1 + (196/100) ^ 2 / ((10 ^ 7 : ℕ) : ℝ) := by
      push_cast
      norm_num
    have hnum : (196/100 : ℝ) * Real.sqrt (((3/50000 : ℝ) * (1 - 3/50000) +
        (196/100) ^ 2 / (4 * (10 ^ 7 : ℕ))) / (10 ^ 7 : ℕ)) ≤ 481/10 ^ 8 := by
      calc (196/100 : ℝ) * Real.sqrt (((3/50000 : ℝ) * (1 - 3/50000) +
            (196/100) ^ 2 / (4 * (10 ^ 7 : ℕ))) / (10 ^ 7 : ℕ))
          ≤ (196/100) * (24514/10 ^ 10) := by
            have := hsqrt
            nlinarith [Real.sqrt_nonneg (((3/50000 : ℝ) * (1 - 3/50000) +
              (196/100) ^ 2 / (4 * (10 ^ 7 : ℕ))) / (10 ^ 7 : ℕ))]
        _ ≤ 481/10 ^ 8 := by norm_num
    calc (196/100 : ℝ) * Real.sqrt (((3/50000 : ℝ) * (1 - 3/50000) +
          (196/100) ^ 2 / (4 * (10 ^ 7 : ℕ))) / (10 ^ 7 : ℕ)) /
          (1 + (196/100) ^ 2 / ((10 ^ 7 : ℕ) : ℝ))
        ≤ (196/100 : ℝ) * Real.sqrt (((3/50000 : ℝ) * (1 - 3/50000) +
          (196/100) ^ 2 / (4 * (10 ^ 7 : ℕ))) / (10 ^ 7 : ℕ)) := by
          apply div_le_self ?_ hd
          have := Real.sqrt_nonneg (((3/50000 : ℝ) * (1 - 3/50000) +
            (196/100) ^ 2 / (4 * (10 ^ 7 : ℕ))) / (10 ^ 7 : ℕ))
          positivity
      _ ≤ 481/10 ^ 8 := hnum
  have hcenter : (601/10 ^ 7 : ℝ) ≤ wilson_center (3/50000) (10 ^ 7) (95/100) := by
    unfold wilson_center
    rw [hz]
    push_cast
    rw [le_div_iff (by norm_num)]
    norm_num
  have hlow : (55/10 ^ 6 : ℝ) ≤ wilson_lower (3/50000) (10 ^ 7) (95/100) := by
    unfold wilson_lower
    refine le_trans ?_ (le_max_right _ _)
    have : (55/10 ^ 6 : ℝ) ≤ 601/10 ^ 7 - 481/10 ^ 8 := by norm_num
    linarith
  have hhigh : wilson_lower (3/50000) (10 ^ 7) (95/100) ≤ 1 := by
    unfold wilson_lower
    apply max_le (by norm_num)
    have habs := wilson_center_sub_rate_abs_le (3/50000) (10 ^ 7) (95/100)
      (by norm_num) (by norm_num) (by norm_num)
    rw [abs_le] at habs
    linarith [habs.2]
  have hrd : (1/10 ^ 4 : ℝ) ≤ round4 (wilson_lower (3/50000) (10 ^ 7) (95/100)) := by
    unfold round4
    have h1le : (1:ℤ) ≤ round (wilson_lower (3/50000) (10 ^ 7) (95/100) * 10 ^ 4) := by
      rw [round_eq]
      rw [Int.le_floor]
      push_cast
      nlinarith [hlow]
    have h1R : (1:ℝ) ≤ ((round (wilson_lower (3/50000) (10 ^ 7) (95/100) * 10 ^ 4) : ℤ) : ℝ) := by
      exact_mod_cast h1le
    linarith
  linarith [hrd]

/-! ## `metrics/statistical.py`: Jensen–Shannon divergence

`numpy`/`scipy` float arrays are modelled as lists of exact reals.
`scipy.stats.entropy(pk, qk)` normalizes both arguments and computes the
Kullback–Leibler divergence `Σ (pk'ᵢ) · ln(pk'ᵢ / qk'ᵢ)` in nats. -/

noncomputable def clipLow (lo : ℝ) (xs : List ℝ) : List ℝ :=
  xs.map fun x => max x lo

noncomputable def normalizeL (xs : List ℝ) : List ℝ :=
  xs.map fun x => x / xs.sum

/-- `scipy.stats.entropy(pk, qk)` (KL divergence, with internal
normalization of both arguments). -/
noncomputable def entropyKL (pk qk : List ℝ) : ℝ :=
  ((pk.zip qk).map fun x => x.1 / pk.sum * Real.log (x.1 / pk.sum / (x.2 / qk.sum))).sum

/-- `m = 0.5 * (p + q)` elementwise. -/
noncomputable def midpointL (p q : List ℝ) : List ℝ :=
  (p.zip q).map fun x => 1/2 * (x.1 + x.2)

/-- `jensen_shannon_divergence(p, q)`: clip both inputs below at `1e-10`,
renormalize, and return `0.5·(KL(p‖m) + KL(q‖m))` with `m` the midpoint. -/
noncomputable def jensen_shannon_divergence (p q : List ℝ) : ℝ :=
  let p' := normalizeL (clipLow (1/10 ^ 10) p)
  let q' := normalizeL (clipLow (1/10 ^ 10) q)
  let m := midpointL p' q'
  1/2 * (entropyKL p' m + entropyKL q' m)

/-- The contribution of one category to `KL(p‖m) + KL(q‖m)`. -/
noncomputable def jsdTerm (a b : ℝ) : ℝ :=
  a * Real.log (a / (1/2 * (a + b))) + b * Real.log (b / (1/2 * (a + b)))

/-! ### List-level lemmas -/

theorem sum_map_div (xs : List ℝ) (s : ℝ) :
    (xs.map fun x => x / s).sum = xs.sum / s := by
  induction xs with
  | nil => simp
  | cons a rest ih => simp [ih, add_div]

theorem normalizeL_sum (xs : List ℝ) (h : xs.sum ≠ 0) :
    (normalizeL xs).sum = 1 := by
  unfold normalizeL
  rw [sum_map_div, div_self h]

theorem normalizeL_length (xs : List ℝ) : (normalizeL xs).length = xs.length := by
  simp [normalizeL]

theorem clipLow_length (lo : ℝ) (xs : List ℝ) : (clipLow lo xs).length = xs.length := by
  simp [clipLow]

theorem clipLow_pos (lo : ℝ) (hlo : 0 < lo) (xs : List ℝ) :
    ∀ x ∈ clipLow lo xs, 0 < x := by
  intro x hx
  unfold clipLow at hx
  rw [List.mem_map] at hx
  obtain ⟨y, _, hy⟩ := hx
  rw [← hy]
  exact lt_of_lt_of_le hlo (le_max_right y lo)

theorem clipLow_sum_pos (lo : ℝ) (hlo : 0 < lo) (xs : List ℝ) (hne : xs ≠ []) :
    0 < (clipLow lo xs).sum :=
  List.sum_pos _ (clipLow_pos lo hlo xs) (by
    intro h
    apply hne
    have := clipLow_length lo xs
    rw [h] at this
    exact List.length_eq_zero.mp this.symm)

theorem normalizeL_pos (xs : List ℝ) (hpos : ∀ x ∈ xs, 0 < x) (hsum : 0 < xs.sum) :
    ∀ x ∈ normalizeL xs, 0 < x := by
  intro x hx
  unfold normalizeL at hx
  rw [List.mem_map] at hx
  obtain ⟨y, hy, hxy⟩ := hx
  rw [← hxy]
  exact div_pos (hpos y hy) hsum

theorem midpointL_self (xs : List ℝ) : midpointL xs xs = xs := by
  induction xs with
  | nil => simp [midpointL]
  | cons a rest ih =>
    simp only [midpointL, List.zip_cons_cons, List.map_cons] at ih ⊢
    rw [ih]
    congr 1
    ring

theorem midpointL_comm : ∀ p q : List ℝ, midpointL p q = midpointL q p := by
  intro p
  induction p with
  | nil =>
    intro q
    cases q <;> simp [midpointL]
  | cons a ps ih =>
    intro q
    cases q with
    | nil => simp [midpointL]
    | cons b qs =>
      simp only [midpointL, List.zip_cons_cons, List.map_cons] at ih ⊢
      have := ih qs
      rw [this]
      congr 1
      ring

theorem midpointL_sum : ∀ p q : List ℝ, p.length = q.length →
    (midpointL p q).sum = 1/2 * (p.sum + q.sum) := by
  intro p
  induction p with
  | nil =>
    intro q hq
    have : q = [] := List.length_eq_zero.mp hq.symm
    subst this
    simp [midpointL]
  | cons a ps ih =>
    intro q hq
    cases q with
    | nil => simp at hq
    | cons b qs =>
      have hq' : ps.length = qs.length := by simpa using hq
      simp only [midpointL, List.zip_cons_cons, List.map_cons, List.sum_cons]
      have hrec := ih qs hq'
      unfold midpointL at hrec
      rw [hrec]
      ring

/-- Splitting `KL(p‖m) + KL(q‖m)` (with normalized arguments) into one term
per category. -/
theorem sum_pair_jsdTerm : ∀ p q : List ℝ,
    ((p.zip (midpointL p q)).map fun x => x.1 * Real.log (x.1 / x.2)).sum +
      ((q.zip (midpointL p q)).map fun x => x.1 * Real.log (x.1 / x.2)).sum =
      ((p.zip q).map fun x => jsdTerm x.1 x.2).sum := by
  intro p
  induction p with
  | nil =>
    intro q
    cases q <;> simp [midpointL]
  | cons a ps ih =>
    intro q
    cases q with
    | nil => simp [midpointL]
    | cons b qs =>
      simp only [midpointL, List.zip_cons_cons, List.map_cons, List.sum_cons]
      have hrec := ih qs
      unfold midpointL at hrec
      rw [jsdTerm]
      linarith [hrec]

/-- Pointwise bounds on one category's contribution. -/
theorem jsdTerm_bounds (a b : ℝ) (ha : 0 < a) (hb : 0 < b) :
    0 ≤ jsdTerm a b ∧ jsdTerm a b ≤ (a + b) * Real.log 2 := by
  have hm : 0 < 1/2 * (a + b) := by linarith
  have hma : 0 < 1/2 * (a + b) / a := div_pos hm ha
  have hmb : 0 < 1/2 * (a + b) / b := div_pos hm hb
  constructor
  · have hla : Real.log (a / (1/2 * (a + b))) ≥ 1 - 1/2 * (a + b) / a := by
      have h := Real.log_le_sub_one_of_pos hma
      have heq : Real.log (a / (1/2 * (a + b))) = -Real.log (1/2 * (a + b) / a) := by
        rw [← Real.log_inv]
        congr 1
        field_simp
        ring
      rw [heq]
      linarith
    have hlb : Real.log (b / (1/2 * (a + b))) ≥ 1 - 1/2 * (a + b) / b := by
      have h := Real.log_le_sub_one_of_pos hmb
      have heq : Real.log (b / (1/2 * (a + b))) = -Real.log (1/2 * (a + b) / b) := by
        rw [← Real.log_inv]
        congr 1
        field_simp
        ring
      rw [heq]
      linarith
    have h1 : a * Real.log (a / (1/2 * (a + b))) ≥ a * (1 - 1/2 * (a + b) / a) :=
      mul_le_mul_of_nonneg_left hla ha.le
    have h2 : b * Real.log (b / (1/2 * (a + b))) ≥ b * (1 - 1/2 * (a + b) / b) :=
      mul_le_mul_of_nonneg_left hlb hb.le
    have ea : a * (1 - 1/2 * (a + b) / a) = a - 1/2 * (a + b) := by
      field_simp
      ring
    have eb : b * (1 - 1/2 * (a + b) / b) = b - 1/2 * (a + b) := by
      field_simp
      ring
    unfold jsdTerm
    rw [ea] at h1
    rw [eb] at h2
    linarith
  · have hra : a / (1/2 * (a + b)) ≤ 2 := by
      rw [div_le_iff hm]
      linarith
    have hrb : b / (1/2 * (a + b)) ≤ 2 := by
      rw [div_le_iff hm]
      linarith
    have hla : Real.log (a / (1/2 * (a + b))) ≤ Real.log 2 :=
      Real.log_le_log (div_pos ha hm) hra
    have hlb : Real.log (b / (1/2 * (a + b))) ≤ Real.log 2 :=
      Real.log_le_log (div_pos hb hm) hrb
    have h1 : a * Real.log (a / (1/2 * (a + b))) ≤ a * Real.log 2 :=
      mul_le_mul_of_nonneg_left hla ha.le
    have h2 : b * Real.log (b / (1/2 * (a + b))) ≤ b * Real.log 2 :=
      mul_le_mul_of_nonneg_left hlb hb.le
    unfold jsdTerm
    nlinarith

theorem sum_jsdTerm_bounds : ∀ l : List (ℝ × ℝ),
    (∀ x ∈ l, 0 < x.1 ∧ 0 < x.2) →
    0 ≤ (l.map fun x => jsdTerm x.1 x.2).sum ∧
      (l.map fun x => jsdTerm x.1 x.2).sum ≤
        ((l.map fun x => x.1).sum + (l.map fun x => x.2).sum) * Real.log 2 := by
  intro l
  induction l with
  | nil => simp
  | cons x rest ih =>
    intro hpos
    have hx := hpos x (List.mem_cons_self x rest)
    have hrest := ih fun y hy => hpos y (List.mem_cons_of_mem x hy)
    have hxb := jsdTerm_bounds x.1 x.2 hx.1 hx.2
    simp only [List.map_cons, List.sum_cons]
    constructor
    · linarith [hxb.1, hrest.1]
    · have expand : (x.1 + (rest.map fun x => x.1).sum +
          (x.2 + (rest.map fun x => x.2).sum)) * Real.log 2 =
          (x.1 + x.2) * Real.log 2 +
          ((rest.map fun x => x.1).sum + (rest.map fun x => x.2).sum) * Real.log 2 := by
        ring
      rw [expand]
      linarith [hxb.2, hrest.2]

theorem zip_fst_sum : ∀ p q : List ℝ, p.length = q.length →
    ((p.zip q).map fun x => x.1).sum = p.sum := by
  intro p
  induction p with
  | nil =>
    intro q _
    simp
  | cons a ps ih =>
    intro q hq
    cases q with
    | nil => simp at hq
    | cons b qs =>
      have hq' : ps.length = qs.length := by simpa using hq
      simp only [List.zip_cons_cons, List.map_cons, List.sum_cons, ih qs hq']

theorem zip_snd_sum : ∀ p q : List ℝ, p.length = q.length →
    ((p.zip q).map fun x => x.2).sum = q.sum := by
  intro p
  induction p with
  | nil =>
    intro q hq
    have : q = [] := List.length_eq_zero.mp hq.symm
    subst this
    simp
  | cons a ps ih =>
    intro q hq
    cases q with
    | nil => simp at hq
    | cons b qs =>
      have hq' : ps.length = qs.length := by simpa using hq
      simp only [List.zip_cons_cons, List.map_cons, List.sum_cons, ih qs hq']

theorem entropyKL_norm (pk qk : List ℝ) (h1 : pk.sum = 1) (h2 : qk.sum = 1) :
    entropyKL pk qk = ((pk.zip qk).map fun x => x.1 * Real.log (x.1 / x.2)).sum := by
  unfold entropyKL
  rw [h1, h2]
  simp

theorem entropyKL_self (xs : List ℝ) : entropyKL xs xs = 0 := by
  unfold entropyKL
  have : ∀ l : List ℝ,
      ((l.zip l).map fun x => x.1 / xs.sum * Real.log (x.1 / xs.sum / (x.2 / xs.sum))).sum
        = 0 := by
    intro l
    induction l with
    | nil => simp
    | cons a rest ih =>
      simp only [List.zip_cons_cons, List.map_cons, List.sum_cons, ih, add_zero]
      by_cases h : a / xs.sum = 0
      · rw [h]
        simp
      · rw [div_self h, Real.log_one, mul_zero]
  exact this xs

/-- C4: for nonempty probability vectors `p`, `q` of the same length,
`jsd(p,p) = 0`, `jsd(p,q) = jsd(q,p)`, and `0 ≤ jsd(p,q) ≤ ln 2`. -/
theorem jsd_properties (p q : List ℝ)
    (hlen : p.length = q.length) (hne : p ≠ [])
    (hp : ∀ x ∈ p, 0 ≤ x) (hq : ∀ x ∈ q, 0 ≤ x)
    (hps : p.sum = 1) (hqs : q.sum = 1) :
    jensen_shannon_divergence p p = 0 ∧
    jensen_shannon_divergence p q = jensen_shannon_divergence q p ∧
    0 ≤ jensen_shannon_divergence p q ∧
    jensen_shannon_divergence p q ≤ Real.log 2 := by
  have hqne : q ≠ [] := by
    intro h
    apply hne
    rw [h] at hlen
    exact List.length_eq_zero.mp (by simpa using hlen)
  have hself : jensen_shannon_divergence p p = 0 := by
    unfold jensen_shannon_divergence
    dsimp only
    rw [midpointL_self, entropyKL_self]
    ring
  have hsymm : jensen_shannon_divergence p q = jensen_shannon_divergence q p := by
    unfold jensen_shannon_divergence
    dsimp only
    rw [midpointL_comm (normalizeL (clipLow (1/10 ^ 10) p))
      (normalizeL (clipLow (1/10 ^ 10) q))]
    ring
  set c : ℝ := 1/10 ^ 10 with hc
  have hcpos : 0 < c := by rw [hc]; norm_num
  set p' := normalizeL (clipLow c p) with hp'
  set q' := normalizeL (clipLow c q) with hq'
  have hpsum : 0 < (clipLow c p).sum := clipLow_sum_pos c hcpos p hne
  have hqsum : 0 < (clipLow c q).sum := clipLow_sum_pos c hcpos q hqne
  have hp'sum : p'.sum = 1 := normalizeL_sum _ hpsum.ne'
  have hq'sum : q'.sum = 1 := normalizeL_sum _ hqsum.ne'
  have hp'pos : ∀ x ∈ p', 0 < x := normalizeL_pos _ (clipLow_pos c hcpos p) hpsum
  have hq'pos : ∀ x ∈ q', 0 < x := normalizeL_pos _ (clipLow_pos c hcpos q) hqsum
  have hp'len : p'.length = q'.length := by
    rw [hp', hq', normalizeL_length, normalizeL_length, clipLow_length, clipLow_length]
    exact hlen
  have hmsum : (midpointL p' q').sum = 1 := by
    rw [midpointL_sum p' q' hp'len, hp'sum, hq'sum]
    norm_num
  have hsum_eq : entropyKL p' (midpointL p' q') + entropyKL q' (midpointL p' q') =
      ((p'.zip q').map fun x => jsdTerm x.1 x.2).sum := by
    rw [entropyKL_norm p' _ hp'sum hmsum, entropyKL_norm q' _ hq'sum hmsum]
    exact sum_pair_jsdTerm p' q'
  have hzip_pos : ∀ x ∈ p'.zip q', 0 < x.1 ∧ 0 < x.2 := by
    intro x hx
    have := List.of_mem_zip hx
    exact ⟨hp'pos x.1 this.1, hq'pos x.2 this.2⟩
  have hbounds := sum_jsdTerm_bounds (p'.zip q') hzip_pos
  have hfst : ((p'.zip q').map fun x => x.1).sum = 1 := by
    rw [zip_fst_sum p' q' hp'len, hp'sum]
  have hsnd : ((p'.zip q').map fun x => x.2).sum = 1 := by
    rw [zip_snd_sum p' q' hp'len, hq'sum]
  have hjsd : jensen_shannon_divergence p q =
      1/2 * ((p'.zip q').map fun x => jsdTerm x.1 x.2).sum := by
    unfold jensen_shannon_divergence
    dsimp only
    rw [← hc, ← hp', ← hq', hsum_eq]
  refine ⟨hself, hsymm, ?_, ?_⟩
  · rw [hjsd]
    linarith [hbounds.1]
  · rw [hjsd]
    have := hbounds.2
    rw [hfst, hsnd] at this
    have hlog2 : 0 ≤ Real.log 2 := Real.log_nonneg (by norm_num)
    linarith

/-- C4 (witness): `p = [1/2, 1/2]`, `q = [1, 0]`. -/
theorem jsd_properties_witness :
    jensen_shannon_divergence [(1/2 : ℝ), 1/2] [(1/2 : ℝ), 1/2] = 0 ∧
    jensen_shannon_divergence [(1/2 : ℝ), 1/2] [(1 : ℝ), 0] =
      jensen_shannon_divergence [(1 : ℝ), 0] [(1/2 : ℝ), 1/2] ∧
    0 ≤ jensen_shannon_divergence [(1/2 : ℝ), 1/2] [(1 : ℝ), 0] ∧
    jensen_shannon_divergence [(1/2 : ℝ), 1/2] [(1 : ℝ), 0] ≤ Real.log 2 :=
  jsd_properties [1/2, 1/2] [1, 0] (by simp) (by simp)
    (by intro x hx; rcases List.mem_pair.mp hx with h | h <;> rw [h] <;> norm_num)
    (by intro x hx; rcases List.mem_pair.mp hx with h | h <;> rw [h] <;> norm_num)
    (by norm_num) (by norm_num)

/-! ## `metrics/extractors.py` and `metrics/comparator.py` -/

def domainValue : Domain → List Char
  | Domain.SYMPTOM => "symptom".toList
  | Domain.FOOD => "food".toList
  | Domain.EMOTION => "emotion".toList
  | Domain.MIND => "mind".toList

/-- `config.drift` thresholds. -/
structure DriftThresholds where
  js_drift : ℚ
  js_breakage : ℚ
  ks_alpha : ℚ
  domain_shift_pct : ℚ
  arousal_shift_pct : ℚ
  volume_change_pct : ℚ

/-- The `DriftThresholds` defaults from `config.py`. -/
def defaultDriftThresholds : DriftThresholds :=
  ⟨1/10, 1/5, 1/20, 15, 20, 25⟩

/-- `DriftMetric`; unset optional fields are `none`, `js_divergence` carries
the 4-decimal-rounded value stored for display (status uses the raw value). -/
structure DriftMetric where
  name : List Char
  baseline_value : ℚ
  current_value : ℚ
  change_pct : ℚ
  js_divergence : Option ℝ
  ks_statistic : Option ℝ
  ks_pvalue : Option ℝ
  status : DriftStatus

/-- The alert strings of `run_drift_analysis`, one constructor per format
string, carrying the interpolated values. -/
inductive DriftAlert
  | volumeChanged (change_pct : ℚ)
  | domainSurge (domain : List Char) (shift base_pct curr_pct : ℚ)
  | arousalCollapsed (curr_high : ℚ)
  | domainShiftBreakage
  | arousalShiftBreakage
  | confidenceShift (ks_pvalue : ℝ)

/-- `DriftReport`, without run-id/timestamp/threshold-echo metadata. -/
structure DriftReport where
  metrics : List DriftMetric
  alerts : List DriftAlert

def get_all_items (outputs : List ParserOutput) : List ParserItem :=
  outputs.flatMap fun o => o.items

/-- Python dict `counts[k] = counts.get(k, 0) + 1` over an association list:
update in place, else append. -/
def incrCount : List (List Char × ℕ) → List Char → List (List Char × ℕ)
  | [], k => [(k, 1)]
  | kv :: rest, k =>
    if kv.1 = k then (k, kv.2 + 1) :: rest else kv :: incrCount rest k

def countsOf (keys : List (List Char)) : List (List Char × ℕ) :=
  keys.foldl incrCount []

/-- `{k: v / total for k, v in counts.items()}`. -/
def distOf (keys : List (List Char)) : List (List Char × ℚ) :=
  let counts := countsOf keys
  let total := (counts.map fun kv => kv.2).sum
  counts.map fun kv => (kv.1, (kv.2 : ℚ) / total)

/-- Python truthiness of an optional string field. -/
def truthyOpt : Option (List Char) → Bool
  | some s => !s.isEmpty
  | none => false

def compute_domain_distribution (items : List ParserItem) : List (List Char × ℚ) :=
  if items = [] then []
  else distOf (items.map fun i => domainValue i.domain)

def compute_arousal_distribution (items : List ParserItem) : List (List Char × ℚ) :=
  let emotion_items := items.filter fun i =>
    decide (i.domain = Domain.EMOTION) && truthyOpt i.arousal_bucket
  if emotion_items = [] then []
  else distOf (emotion_items.map fun i => i.arousal_bucket.getD [])

def compute_intensity_distribution (items : List ParserItem) : List (List Char × ℚ) :=
  let relevant := items.filter fun i =>
    !decide (i.domain = Domain.EMOTION) && truthyOpt i.intensity_bucket
  if relevant = [] then []
  else distOf (relevant.map fun i => i.intensity_bucket.getD [])

def isUncertainItem (i : ParserItem) : Bool :=
  decide (i.intensity_bucket = some "unknown".toList) ||
    (decide (i.domain = Domain.EMOTION) && decide (i.arousal_bucket = none)) ||
    decide (i.confidence < 1/2)

def compute_uncertainty_rate (items : List ParserItem) : ℚ :=
  if items = [] then 0
  else ((items.filter isUncertainItem).length : ℚ) / items.length

/-- The volume statistics of `compute_extraction_volume`; Python's
`variance ** 0.5` becomes a real square root. -/
structure VolumeStats where
  mean : ℚ
  std : ℝ
  zero_rate : ℚ
  total_items : ℕ
  total_journals : ℕ

noncomputable def compute_extraction_volume (outputs : List ParserOutput) : VolumeStats :=
  if outputs = [] then ⟨0, 0, 0, 0, 0⟩
  else
    let counts := outputs.map fun o => (o.items.length : ℚ)
    let mean := counts.sum / (counts.length : ℚ)
    let variance := (counts.map fun c => (c - mean) ^ 2).sum / (counts.length : ℚ)
    ⟨mean, Real.sqrt (variance : ℝ),
      ((counts.filter fun c => decide (c = 0)).length : ℚ) / (counts.length : ℚ),
      (outputs.map fun o => o.items.length).sum, outputs.length⟩

/-- `ks_test(baseline, current)` guards tiny samples and otherwise delegates
to `scipy.stats.ks_2samp`, which is an external statistical routine passed
here as a parameter. -/
def ks_test (ks_2samp : List ℚ → List ℚ → ℝ × ℝ) (baseline current : List ℚ) :
    ℝ × ℝ :=
  if baseline.length < 2 ∨ current.length < 2 then (0, 1)
  else ks_2samp baseline current

/-- `max(dict.values())` over a non-empty value list. -/
def listMaxQ : List ℚ → ℚ
  | [] => 0
  | a :: rest => rest.foldl max a

def dictGetD (d : List (List Char × ℚ)) (k : List Char) (v : ℚ) : ℚ :=
  ((d.find? fun kv => decide (kv.1 = k)).map fun kv => kv.2).getD v

/-- Ascending lexicographic comparison of strings (Python `<` on `str`). -/
def charListLe : List Char → List Char → Bool
  | [], _ => true
  | _ :: _, [] => false
  | a :: as, b :: bs => if a < b then true else if a = b then charListLe as bs else false

def insertSorted (x : List Char) : List (List Char) → List (List Char)
  | [] => [x]
  | y :: ys => if charListLe x y then x :: y :: ys else y :: insertSorted x ys

/-- Python's `sorted(...)` on distinct string keys (insertion sort). -/
def sortKeys (l : List (List Char)) : List (List Char) :=
  l.foldr insertSorted []

open scoped Classical in
noncomputable def determine_status (js_div : ℝ) (t : DriftThresholds) : DriftStatus :=
  if js_div ≥ (t.js_breakage : ℝ) then DriftStatus.BREAKAGE
  else if js_div ≥ (t.js_drift : ℝ) then DriftStatus.DRIFT
  else DriftStatus.STABLE

/-- `compare_distributions(baseline_dist, current_dist, name, thresholds)`:
arrays over `sorted(set(keys))` (default 0), JS divergence, display values,
and the JS-divergence-based status. -/
noncomputable def compare_distributions (baseline_dist current_dist : List (List Char × ℚ))
    (name : List Char) (t : DriftThresholds) : DriftMetric :=
  let all_keys := sortKeys (dedupKeepFirst
    ((baseline_dist.map fun kv => kv.1) ++ (current_dist.map fun kv => kv.1)))
  if all_keys = [] then
    ⟨name, 0, 0, 0, some 0, none, none, DriftStatus.STABLE⟩
  else
    let baseline_arr := all_keys.map fun k => dictGetD baseline_dist k 0
    let current_arr := all_keys.map fun k => dictGetD current_dist k 0
    let js_div := jensen_shannon_divergence
      (baseline_arr.map fun x => (x : ℝ)) (current_arr.map fun x => (x : ℝ))
    let baseline_val := if baseline_dist = [] then 0
      else listMaxQ (baseline_dist.map fun kv => kv.2)
    let current_val := if current_dist = [] then 0
      else listMaxQ (current_dist.map fun kv => kv.2)
    let change := if baseline_val > 0 then (current_val - baseline_val) / baseline_val * 100
      else 0
    ⟨name, roundQ 3 baseline_val, roundQ 3 current_val, roundQ 1 change,
      some (round4 js_div), none, none, determine_status js_div t⟩

open scoped Classical in
/-- The confidence-distribution status thresholds on the KS p-value. -/
noncomputable def confStatusOf (pval : ℝ) : DriftStatus :=
  if pval < (1/100 : ℝ) then DriftStatus.BREAKAGE
  else if pval < (5/100 : ℝ) then DriftStatus.DRIFT
  else DriftStatus.STABLE

/-- `run_drift_analysis(baseline_outputs, current_outputs)` with the global
`config.drift` thresholds; `scipy.stats.ks_2samp` is a parameter; run id and
timestamp metadata are omitted. -/
noncomputable def run_drift_analysis (ks_2samp : List ℚ → List ℚ → ℝ × ℝ)
    (baseline_outputs current_outputs : List ParserOutput) : DriftReport :=
  let thresholds := defaultDriftThresholds
  let baseline_items := get_all_items baseline_outputs
  let current_items := get_all_items current_outputs
  let base_vol := compute_extraction_volume baseline_outputs
  let curr_vol := compute_extraction_volume current_outputs
  let vol_change := if base_vol.mean > 0
    then (curr_vol.mean - base_vol.mean) / base_vol.mean * 100 else 0
  let vol_status := if |vol_change| > 50 then DriftStatus.BREAKAGE
    else if |vol_change| > thresholds.volume_change_pct then DriftStatus.DRIFT
    else DriftStatus.STABLE
  let metric_vol : DriftMetric := ⟨"extraction_volume".toList, roundQ 2 base_vol.mean,
    roundQ 2 curr_vol.mean, roundQ 1 vol_change, none, none, none, vol_status⟩
  let alerts_vol : List DriftAlert :=
    if vol_status ≠ DriftStatus.STABLE then [DriftAlert.volumeChanged vol_change] else []
  let base_unc := compute_uncertainty_rate baseline_items
  let curr_unc := compute_uncertainty_rate current_items
  let unc_change := (curr_unc - base_unc) * 100
  let unc_status := if curr_unc > 6/10 then DriftStatus.BREAKAGE
    else if unc_change > 15 then DriftStatus.DRIFT
    else DriftStatus.STABLE
  let metric_unc : DriftMetric := ⟨"uncertainty_rate".toList, roundQ 3 base_unc,
    roundQ 3 curr_unc, roundQ 1 unc_change, none, none, none, unc_status⟩
  let base_domain := compute_domain_distribution baseline_items
  let curr_domain := compute_domain_distribution current_items
  let domain_metric := compare_distributions base_domain curr_domain
    "domain_mix".toList thresholds
  let alerts_surge : List DriftAlert :=
    ["mind".toList, "emotion".toList].filterMap fun d =>
      let base_pct := dictGetD base_domain d 0
      let curr_pct := dictGetD curr_domain d 0
      let shift := (curr_pct - base_pct) * 100
      if shift > thresholds.domain_shift_pct then
        some (DriftAlert.domainSurge d shift base_pct curr_pct)
      else none
  let base_arousal := compute_arousal_distribution baseline_items
  let curr_arousal := compute_arousal_distribution current_items
  let arousal_metric := compare_distributions base_arousal curr_arousal
    "arousal_distribution".toList thresholds
  let alerts_collapse : List DriftAlert :=
    if dictGetD curr_arousal "high".toList 0 > 9/10 ∧
        dictGetD base_arousal "high".toList 0 < 7/10 then
      [DriftAlert.arousalCollapsed (dictGetD curr_arousal "high".toList 0)]
    else []
  let base_intensity := compute_intensity_distribution baseline_items
  let curr_intensity := compute_intensity_distribution current_items
  let intensity_metric := compare_distributions base_intensity curr_intensity
    "intensity_distribution".toList thresholds
  let base_conf := baseline_items.map fun i => i.confidence
  let curr_conf := current_items.map fun i => i.confidence
  let ks := ks_test ks_2samp base_conf curr_conf
  let conf_status := confStatusOf ks.2
  let base_conf_mean := if base_conf ≠ [] then base_conf.sum / base_conf.length else 0
  let curr_conf_mean := if curr_conf ≠ [] then curr_conf.sum / curr_conf.length else 0
  let conf_change := if base_conf_mean > 0
    then (curr_conf_mean - base_conf_mean) / base_conf_mean * 100 else 0
  let metric_conf : DriftMetric := ⟨"confidence_distribution".toList,
    roundQ 3 base_conf_mean, roundQ 3 curr_conf_mean, roundQ 1 conf_change,
    none, some ks.1, some ks.2, conf_status⟩
  let alerts_dbreak : List DriftAlert :=
    if domain_metric.status = DriftStatus.BREAKAGE then [DriftAlert.domainShiftBreakage] else []
  let alerts_abreak : List DriftAlert :=
    if arousal_metric.status = DriftStatus.BREAKAGE then [DriftAlert.arousalShiftBreakage] else []
  let alerts_conf : List DriftAlert :=
    if conf_status ≠ DriftStatus.STABLE then [DriftAlert.confidenceShift ks.2] else []
  ⟨[metric_vol, metric_unc, domain_metric, arousal_metric, intensity_metric, metric_conf],
    alerts_vol ++ alerts_surge ++ alerts_collapse ++ alerts_dbreak ++ alerts_abreak ++
      alerts_conf⟩

/-! ### The arousal-collapse scenario (C5) -/

/-- `b·ln(b/m) ≥ −2·√(b·m)` for positive `b`, `m`: the small clipped masses
contribute only a negligible negative amount to the divergence. -/
theorem mul_log_div_ge (b m : ℝ) (hb : 0 < b) (hm : 0 < m) :
    -2 * Real.sqrt (b * m) ≤ b * Real.log (b / m) := by
  have hdiv : 0 < m / b := div_pos hm hb
  have hsqrt_pos : 0 < Real.sqrt (m / b) := Real.sqrt_pos.mpr hdiv
  have hlog2 : Real.log (m / b) = 2 * Real.log (Real.sqrt (m / b)) := by
    rw [Real.log_sqrt hdiv.le]
    ring
  have hbound : Real.log (Real.sqrt (m / b)) ≤ Real.sqrt (m / b) - 1 :=
    Real.log_le_sub_one_of_pos hsqrt_pos
  have hneg : Real.log (b / m) = -Real.log (m / b) := by
    rw [← Real.log_inv]
    congr 1
    rw [inv_div]
  have hkey : b * Real.sqrt (m / b) = Real.sqrt (b * m) := by
    have hb2 : b = Real.sqrt (b ^ 2) := (Real.sqrt_sq hb.le).symm
    calc b * Real.sqrt (m / b) = Real.sqrt (b ^ 2) * Real.sqrt (m / b) := by rw [← hb2]
      _ = Real.sqrt (b ^ 2 * (m / b)) := (Real.sqrt_mul (sq_nonneg b) _).symm
      _ = Real.sqrt (b * m) := by
          congr 1
          field_simp
          ring
  have step : b * Real.log (b / m) = -(b * Real.log (m / b)) := by
    rw [hneg]
    ring
  rw [step, hlog2]
  have hmul : b * (2 * Real.log (Real.sqrt (m / b))) ≤ b * (2 * (Real.sqrt (m / b) - 1)) := by
    apply mul_le_mul_of_nonneg_left ?_ hb.le
    linarith
  have expand : b * (2 * (Real.sqrt (m / b) - 1)) = 2 * (b * Real.sqrt (m / b)) - 2 * b := by
    ring
  rw [expand, hkey] at hmul
  linarith

/-- The Jensen–Shannon divergence of the end-to-end scenario 3 distributions
(baseline `[high 0.30, low 0.35, medium 0.35]` vs current `[high 0.95, 0, 0]`
over the sorted key union) exceeds the 0.20 breakage threshold. -/
theorem jsd_scenario_ge :
    (1/5 : ℝ) ≤ jensen_shannon_divergence [(30/100 : ℝ), 35/100, 35/100]
      [(95/100 : ℝ), 0, 0] := by
  unfold jensen_shannon_divergence
  dsimp only
  have hclip_p : clipLow (1/10 ^ 10) [(30/100 : ℝ), 35/100, 35/100] =
      [(30/100 : ℝ), 35/100, 35/100] := by
    simp only [clipLow, List.map_cons, List.map_nil]
    rw [max_eq_left (show (1/10 ^ 10 : ℝ) ≤ 30/100 by norm_num),
      max_eq_left (show (1/10 ^ 10 : ℝ) ≤ 35/100 by norm_num)]
  have hsum_p : ([(30/100 : ℝ), 35/100, 35/100]).sum = 1 := by
    simp only [List.sum_cons, List.sum_nil]
    norm_num
  have hp' : normalizeL (clipLow (1/10 ^ 10) [(30/100 : ℝ), 35/100, 35/100]) =
      [(30/100 : ℝ), 35/100, 35/100] := by
    rw [hclip_p]
    unfold normalizeL
    rw [hsum_p]
    simp
  have hclip_q : clipLow (1/10 ^ 10) [(95/100 : ℝ), 0, 0] =
      [(95/100 : ℝ), 1/10 ^ 10, 1/10 ^ 10] := by
    simp only [clipLow, List.map_cons, List.map_nil]
    rw [max_eq_left (show (1/10 ^ 10 : ℝ) ≤ 95/100 by norm_num),
      max_eq_right (show (0 : ℝ) ≤ 1/10 ^ 10 by norm_num)]
  set S : ℝ := ([(95/100 : ℝ), 1/10 ^ 10, 1/10 ^ 10]).sum with hSdef
  have hS_val : S = 95/100 + 2/10 ^ 10 := by
    rw [hSdef]
    simp only [List.sum_cons, List.sum_nil]
    ring
  have hS_pos : 0 < S := by
    rw [hS_val]
    norm_num
  have hq' : normalizeL (clipLow (1/10 ^ 10) [(95/100 : ℝ), 0, 0]) =
      [95/100/S, (1/10 ^ 10)/S, (1/10 ^ 10)/S] := by
    rw [hclip_q]
    unfold normalizeL
    rw [← hSdef]
    simp only [List.map_cons, List.map_nil]
  have hq'sum : ([95/100/S, (1/10 ^ 10)/S, (1/10 ^ 10)/S] : List ℝ).sum = 1 := by
    simp only [List.sum_cons, List.sum_nil, add_zero]
    rw [show (95/100/S + ((1/10 ^ 10)/S + (1/10 ^ 10)/S) : ℝ) = (95/100 + 2/10 ^ 10) / S by
      ring, ← hS_val, div_self hS_pos.ne']
  rw [hp', hq']
  have hm_sum : (midpointL [(30/100 : ℝ), 35/100, 35/100]
      [95/100/S, (1/10 ^ 10)/S, (1/10 ^ 10)/S]).sum = 1 := by
    rw [midpointL_sum _ _ (by simp), hsum_p, hq'sum]
    norm_num
  rw [entropyKL_norm _ _ hsum_p hm_sum, entropyKL_norm _ _ hq'sum hm_sum,
    sum_pair_jsdTerm]
  simp only [List.zip_cons_cons, List.zip_nil_right, List.map_cons, List.map_nil,
    List.sum_cons, List.sum_nil, add_zero]
  set b : ℝ := (1/10 ^ 10)/S with hbdef
  have hb_pos : 0 < b := by
    rw [hbdef]
    exact div_pos (by norm_num) hS_pos
  have hb_le : b ≤ 2/10 ^ 10 := by
    rw [hbdef, hS_val, div_le_iff (by norm_num)]
    norm_num
  have hT0 : 0 ≤ jsdTerm (30/100) (95/100/S) :=
    (jsdTerm_bounds _ _ (by norm_num) (div_pos (by norm_num) hS_pos)).1
  have hm₁ : (0:ℝ) < 1/2 * (35/100 + b) := by linarith
  have hT1 : (24252/100000 : ℝ) ≤ jsdTerm (35/100) b := by
    unfold jsdTerm
    have hratio : (19999/10000 : ℝ) ≤ 35/100 / (1/2 * (35/100 + b)) := by
      rw [le_div_iff hm₁]
      nlinarith [hb_le, hb_pos]
    have hlogr : Real.log (19999/10000 : ℝ) ≤
        Real.log (35/100 / (1/2 * (35/100 + b))) :=
      Real.log_le_log (by norm_num) hratio
    have hlog0 : (6930/10000 : ℝ) ≤ Real.log (19999/10000 : ℝ) := by
      have h2 : (19999/10000 : ℝ) = 2 * (19999/20000) := by norm_num
      rw [h2, Real.log_mul (by norm_num) (by norm_num)]
      have hinv : Real.log (19999/20000 : ℝ) = -Real.log (20000/19999 : ℝ) := by
        rw [← Real.log_inv]
        norm_num
      have hb1 : Real.log (20000/19999 : ℝ) ≤ 20000/19999 - 1 :=
        Real.log_le_sub_one_of_pos (by norm_num)
      have hl2 := Real.log_two_gt_d9
      rw [hinv]
      have hs : (20000/19999 - 1 : ℝ) = 1/19999 := by norm_num
      rw [hs] at hb1
      have : (6930/10000 : ℝ) ≤ 0.6931471803 - 1/19999 := by norm_num
      linarith
    have hA : (35/100 : ℝ) * (6930/10000) ≤
        35/100 * Real.log (35/100 / (1/2 * (35/100 + b))) :=
      mul_le_mul_of_nonneg_left (le_trans hlog0 hlogr) (by norm_num)
    have hB := mul_log_div_ge b (1/2 * (35/100 + b)) hb_pos hm₁
    have hbm : b * (1/2 * (35/100 + b)) ≤ (15/10 ^ 6) ^ 2 := by
      nlinarith [hb_le, hb_pos]
    have hsq : Real.sqrt (b * (1/2 * (35/100 + b))) ≤ 15/10 ^ 6 := by
      calc Real.sqrt (b * (1/2 * (35/100 + b))) ≤ Real.sqrt ((15/10 ^ 6) ^ 2) :=
            Real.sqrt_le_sqrt hbm
        _ = 15/10 ^ 6 := Real.sqrt_sq (by norm_num)
    nlinarith [hA, hB, hsq]
  linarith [hT0, hT1]

/-- The scenario distributions as dicts, as the spec's scenario 3 states
them. -/
def scenarioBaseArousal : List (List Char × ℚ) :=
  [("low".toList, 35/100), ("medium".toList, 35/100), ("high".toList, 30/100)]

def scenarioCurrArousal : List (List Char × ℚ) :=
  [("high".toList, 95/100)]

/-- C5: (i) whenever the current arousal "high" share exceeds 0.9 and the
baseline "high" share is below 0.7, the CRITICAL "arousal collapsed" alert is
emitted, with no assumption on any metric status; (ii) on the scenario-3
distributions the arousal metric status is BREAKAGE; (iii) the arousal metric
of the report is exactly `compare_distributions` of the computed arousal
distributions, so (ii) is the status such a run reports. -/
theorem arousal_collapse_spec :
    (∀ (ks : List ℚ → List ℚ → ℝ × ℝ)
      (baseline_outputs current_outputs : List ParserOutput),
      dictGetD (compute_arousal_distribution (get_all_items current_outputs))
        "high".toList 0 > 9/10 →
      dictGetD (compute_arousal_distribution (get_all_items baseline_outputs))
        "high".toList 0 < 7/10 →
      DriftAlert.arousalCollapsed
          (dictGetD (compute_arousal_distribution (get_all_items current_outputs))
            "high".toList 0) ∈
        (run_drift_analysis ks baseline_outputs current_outputs).alerts) ∧
    (compare_distributions scenarioBaseArousal scenarioCurrArousal
      "arousal_distribution".toList defaultDriftThresholds).status =
      DriftStatus.BREAKAGE ∧
    (∀ (ks : List ℚ → List ℚ → ℝ × ℝ)
      (baseline_outputs current_outputs : List ParserOutput),
      (run_drift_analysis ks baseline_outputs current_outputs).metrics.get? 3 =
        some (compare_distributions
          (compute_arousal_distribution (get_all_items baseline_outputs))
          (compute_arousal_distribution (get_all_items current_outputs))
          "arousal_distribution".toList defaultDriftThresholds)) := by
  refine ⟨?_, ?_, ?_⟩
  · intro ks baseline_outputs current_outputs hcurr hbase
    unfold run_drift_analysis
    dsimp only
    rw [if_pos (show dictGetD (compute_arousal_distribution (get_all_items current_outputs))
        "high".toList 0 > 9/10 ∧
        dictGetD (compute_arousal_distribution (get_all_items baseline_outputs))
        "high".toList 0 < 7/10 from ⟨hcurr, hbase⟩)]
    simp [List.mem_append]
  · unfold compare_distributions
    dsimp only
    have hkeys : sortKeys (dedupKeepFirst
        ((scenarioBaseArousal.map fun kv => kv.1) ++
          (scenarioCurrArousal.map fun kv => kv.1))) =
        ["high".toList, "low".toList, "medium".toList] := by decide
    rw [hkeys]
    rw [if_neg (by decide)]
    have harr_b : (["high".toList, "low".toList, "medium".toList].map fun k =>
        dictGetD scenarioBaseArousal k 0) = [30/100, 35/100, 35/100] := rfl
    have harr_c : (["high".toList, "low".toList, "medium".toList].map fun k =>
        dictGetD scenarioCurrArousal k 0) = [95/100, 0, 0] := rfl
    rw [harr_b, harr_c]
    have hcast_b : (([30/100, 35/100, 35/100] : List ℚ).map fun x => (x : ℝ)) =
        [(30/100 : ℝ), 35/100, 35/100] := by
      norm_num
    have hcast_c : (([95/100, 0, 0] : List ℚ).map fun x => (x : ℝ)) =
        [(95/100 : ℝ), 0, 0] := by
      norm_num
    rw [hcast_b, hcast_c]
    dsimp only
    unfold determine_status
    rw [if_pos]
    calc ((defaultDriftThresholds.js_breakage : ℚ) : ℝ) = 1/5 := by
          unfold defaultDriftThresholds
          norm_num
      _ ≤ jensen_shannon_divergence [(30/100 : ℝ), 35/100, 35/100] [(95/100 : ℝ), 0, 0] :=
          jsd_scenario_ge
  · intro ks baseline_outputs current_outputs
    rfl

/-- Concrete outputs for the C5 witness: baseline all-low arousal, current
all-high arousal. -/
def lowArousalOutput : ParserOutput :=
  ⟨"jb".toList,
    [⟨Domain.EMOTION, "calm".toList, "calm".toList, Polarity.PRESENT, "today".toList,
      none, some "low".toList, 9/10⟩]⟩

def highArousalOutput : ParserOutput :=
  ⟨"jc".toList,
    [⟨Domain.EMOTION, "panic".toList, "panic".toList, Polarity.PRESENT, "today".toList,
      none, some "high".toList, 9/10⟩]⟩

/-- C5 (witness): on those outputs the current "high" share is 1 > 0.9, the
baseline share is 0 < 0.7, and the collapse alert is in the report. -/
theorem arousal_collapse_spec_witness :
    DriftAlert.arousalCollapsed
        (dictGetD (compute_arousal_distribution (get_all_items [highArousalOutput]))
          "high".toList 0) ∈
      (run_drift_analysis (fun _ _ => (0, 1)) [lowArousalOutput] [highArousalOutput]).alerts :=
  arousal_collapse_spec.1 (fun _ _ => (0, 1)) [lowArousalOutput] [highArousalOutput]
    (by norm_num [compute_arousal_distribution, get_all_items, highArousalOutput,
      distOf, countsOf, incrCount, dictGetD, truthyOpt, List.filter, List.find?])
    (by norm_num [compute_arousal_distribution, get_all_items, lowArousalOutput,
      distOf, countsOf, incrCount, dictGetD, truthyOpt, List.filter, List.find?])

end Ashwam
